import Mathlib

/-!
Shallow embedding of the Magnetic Balltracking engine of
`balltracking/mballtrack.py` (class `MBT` and its helpers), together with
proofs about its validity/decimation policy, age bookkeeping, sentinel
handling, emergence population and surface interpolation.

Modelling conventions:
* machine floats are modelled by `ℚ`; the IEEE NaN sentinel written into the
  velocity of invalidated balls is modelled by `Option ℚ` with `none` playing
  the role of NaN (arithmetic absorbs `none`);
* numpy arrays are lists of fixed length (the ball capacity `nballs_max`);
* `np.argsort` / `np.lexsort` are modelled by a stable sort
  (`List.insertionSort`); `np.lexsort` is documented stable, and numpy's
  default sort is a stable insertion sort on the short runs relevant to
  every concrete input considered here;
* frames and surfaces are functions `ℤ → ℤ → ℚ`; `image x y` models
  `self.image[y, x]` (numpy row-major indexing `[row, col]`);
* `astype(np.int32)` on coordinates is truncation toward zero (`truncQ`);
* functions of this repository that live in the (absent) module
  `balltrack.py` (`get_off_edges_mask`, `put_balls_on_surface`,
  `integrate_motion`) are modelled from the spec, as indicated in their
  doc comments.
-/

deriving instance DecidableEq for Except

namespace MBall

/-- A ball position or velocity component: `none` models IEEE NaN. -/
abbrev OQ := Option ℚ

/-- (x, y, z) triple of a ball, components possibly NaN. -/
abbrev Pos3 := OQ × OQ × OQ

/-- NaN-absorbing addition on `Option ℚ`, modelling float addition with NaN. -/
def oAdd : OQ → OQ → OQ
  | some a, some b => some (a + b)
  | _, _ => none

/-- NaN-absorbing multiplication on `Option ℚ`, modelling float product with NaN. -/
def oMul : OQ → OQ → OQ
  | some a, some b => some (a * b)
  | _, _ => none

/-- The sentinel position (-1, -1, -1) written into flagged bad balls
(`self.pos[:, self.bad_balls_mask] = -1`). -/
def sentinel : Pos3 := (some (-1), some (-1), some (-1))

/-- The NaN triple written into the velocity of flagged bad balls
(`self.vel[:, self.bad_balls_mask] = np.nan`). -/
def nanTriple : Pos3 := (none, none, none)

/-- The zero velocity triple. -/
def zeroTriple : Pos3 := (some 0, some 0, some 0)

/-- Truncation toward zero, the semantics of `ndarray.astype(np.int32)`
on (in-range) float coordinates. -/
def truncQ (q : ℚ) : ℤ := if 0 ≤ q then ⌊q⌋ else ⌈q⌉

/-- `np.sign` on the rational model of a float pixel value. -/
def qsign (q : ℚ) : ℚ := if 0 < q then 1 else if q < 0 then -1 else 0

/-- Configuration of one `MBT` instance (the constructor parameters that the
tracked claims depend on).  The damping factors `e_tdx_`, `e_tdy_`, `e_tdz_`
model the precomputed `np.exp(-1/td)` values as arbitrary rationals. -/
structure Params where
  nx : ℕ
  ny : ℕ
  rs : ℕ
  dp : ℚ
  ballspacing : ℕ
  intsteps : ℕ
  nt : ℕ
  noise_level : ℚ
  polarity : ℚ
  track_emergence : Bool
  e_tdx_ : ℚ
  e_tdy_ : ℚ
  e_tdz_ : ℚ
deriving DecidableEq

/-- Ceiling division on naturals, the value of `np.ceil(a / b).astype(int)`
for natural `a`, positive `b`. -/
def ceilDiv (a b : ℕ) : ℕ := (a + b - 1) / b

/-- `self.nxc_`, the number of coarse-grid columns: `np.ceil(self.nx / self.ballspacing)`. -/
def nxc_ (p : Params) : ℕ := ceilDiv p.nx p.ballspacing

/-- `self.nyc_` exactly as the source computes it: `np.ceil(self.nx / self.ballspacing)`.
Note the source uses `self.nx`, not `self.ny`, in this second component
(mballtrack.py line 99). -/
def nyc_ (p : Params) : ℕ := ceilDiv p.nx p.ballspacing

/-- The coarse-grid dimensions as the spec describes them: a partition of the
whole frame into cells of side `ballspacing`, i.e. `ceil(nx/ballspacing)`
columns by `ceil(ny/ballspacing)` rows.  This second definition follows the
spec's words and exists only to be compared with the source's
`nxc_` / `nyc_`. -/
def coarseDimsSpec (p : Params) : ℕ × ℕ := (ceilDiv p.nx p.ballspacing, ceilDiv p.ny p.ballspacing)

/-- `np.clip(v, 0, hi)` on an integer value. -/
def clip0 (v : ℤ) (hi : ℤ) : ℤ := min (max v 0) hi

/-- `coarse_grid_pos(mbt, x, y)`: the coarse-grid column, row, and the
row-major linear index (`np.ravel_multi_index((ycoarse, xcoarse), (nyc_, nxc_))`),
with `floor(x / ballspacing)` clipped to `[0, nxc_ - 1]` and
`floor(y / ballspacing)` clipped to `[0, nyc_ - 1]`. -/
def coarse_grid_pos (p : Params) (x y : ℚ) : ℕ × ℕ × ℕ :=
  let xcoarse : ℕ := (clip0 ⌊x / (p.ballspacing : ℚ)⌋ ((nxc_ p : ℤ) - 1)).toNat
  let ycoarse : ℕ := (clip0 ⌊y / (p.ballspacing : ℚ)⌋ ((nyc_ p : ℤ) - 1)).toNat
  (xcoarse, ycoarse, ycoarse * nxc_ p + xcoarse)

/-- The linear coarse-grid index of a stored ball position (x and y read with
NaN defaulted to 0; in every reachable use the coordinates are defined). -/
def coarseOfPos3 (p : Params) (q : Pos3) : ℕ :=
  (coarse_grid_pos p (q.1.getD 0) (q.2.1.getD 0)).2.2

/-- Modelled from the spec: `blt.get_off_edges_mask(rs, nx, ny, x, y)` of the
absent module `balltrack.py`.  Per spec sections 3 and 4.5, a ball is
off-edge when its disk footprint of radius `rs` would index outside the
frame bounds, i.e. unless `rs ≤ x ≤ nx - 1 - rs` and `rs ≤ y ≤ ny - 1 - rs`. -/
def offEdgeQ (p : Params) (x y : ℚ) : Bool :=
  !(decide ((p.rs : ℚ) ≤ x ∧ x ≤ (p.nx : ℚ) - 1 - p.rs ∧
            (p.rs : ℚ) ≤ y ∧ y ≤ (p.ny : ℚ) - 1 - p.rs))

/-- Off-edge test on a stored position triple; a NaN coordinate cannot lie
inside the frame bounds, so it counts as off-edge. -/
def offEdgeO (p : Params) (q : Pos3) : Bool :=
  match q.1, q.2.1 with
  | some x, some y => offEdgeQ p x y
  | _, _ => true

/-- The list of integer offsets of the disk footprint of radius `rs`. -/
def footprintOffsets (rs : ℕ) : List (ℤ × ℤ) :=
  ((List.range (2 * rs + 1)).flatMap fun i =>
    (List.range (2 * rs + 1)).map fun j => ((i : ℤ) - rs, (j : ℤ) - rs)).filter
    fun o => decide (o.1 * o.1 + o.2 * o.2 ≤ (rs : ℤ) * rs)

/-- Modelled from the spec: `blt.put_balls_on_surface(surface, x, y, rs, dp)`
of the absent module `balltrack.py`.  Per spec section 4.3, the starting z of
a ball is the minimal surface value under its disk footprint scaled by the
characteristic depth fraction `dp`. -/
def put_balls_on_surface (surface : ℤ → ℤ → ℚ) (x y : ℚ) (rs : ℕ) (dp : ℚ) : ℚ :=
  let tx := truncQ x
  let ty := truncQ y
  let vals := (footprintOffsets rs).map fun o => surface (tx + o.1) (ty + o.2)
  dp * vals.foldl min (surface tx ty)

/-- The fatal mid-run abort raised by `set_bad_balls` via `sys.exit(1)` when
all balls fail one of the validity checks.  Each constructor corresponds to
one check; the only diagnostic context the source emits is the printed
message (`AbortError.message`) and the process exit code 1. -/
inductive AbortError where
  | polarityAbort
  | noiseAbort
  | sinkingAbort
deriving DecidableEq

/-- The message printed by `set_bad_balls` just before `sys.exit(1)`. -/
def AbortError.message : AbortError → String
  | .polarityAbort => "All the balls crossed to opposite polarity. Tracking interrupted."
  | .noiseAbort => "All the balls are sitting on noise. Tracking interrupted."
  | .sinkingAbort => "All the balls have sunk below maximum allowed depth. Tracking interrupted."

/-- The process exit code of the abort: `sys.exit(1)` in every branch. -/
def AbortError.exitCode : AbortError → ℕ := fun _ => 1

/-- `self.min_ds_ = 4 * self.rs`, the deepest height below surface level at
which a ball can fall. -/
def min_ds_ (p : Params) : ℚ := 4 * p.rs

/-- A decimation entry: (slot index, linear coarse-grid index, ball age). -/
abbrev Entry := ℕ × ℕ × ℕ

/-- Comparison by coarse index, the key of `np.argsort(coarse_pos)`. -/
def coarseLe (a b : Entry) : Prop := a.2.1 ≤ b.2.1

instance : DecidableRel coarseLe := fun a b => inferInstanceAs (Decidable (a.2.1 ≤ b.2.1))

instance : IsTotal Entry coarseLe := ⟨fun a b => Nat.le_total a.2.1 b.2.1⟩

instance : IsTrans Entry coarseLe := ⟨fun _ _ _ h h2 => Nat.le_trans h h2⟩

/-- Lexicographic comparison by (coarse index, age), the key of
`np.lexsort([balls_age, coarse_pos])`. -/
def coarseAgeLe (a b : Entry) : Prop :=
  a.2.1 < b.2.1 ∨ (a.2.1 = b.2.1 ∧ a.2.2 ≤ b.2.2)

instance : DecidableRel coarseAgeLe := fun a b =>
  inferInstanceAs (Decidable (a.2.1 < b.2.1 ∨ (a.2.1 = b.2.1 ∧ a.2.2 ≤ b.2.2)))

instance : IsTotal Entry coarseAgeLe := by
  constructor
  intro a b
  rcases Nat.lt_trichotomy a.2.1 b.2.1 with h | h | h
  · exact Or.inl (Or.inl h)
  · rcases Nat.le_total a.2.2 b.2.2 with h2 | h2
    · exact Or.inl (Or.inr ⟨h, h2⟩)
    · exact Or.inr (Or.inr ⟨h.symm, h2⟩)
  · exact Or.inr (Or.inl h)

instance : IsTrans Entry coarseAgeLe := by
  constructor
  rintro a b c (h | ⟨he, ha⟩) (h2 | ⟨he2, ha2⟩)
  · exact Or.inl (h.trans_le (Nat.le_of_lt h2))
  · exact Or.inl (he2 ▸ h)
  · exact Or.inl (he ▸ h2)
  · exact Or.inr ⟨he.trans he2, ha.trans ha2⟩

/-- Keep the last element of every run of equal coarse indices.  This models
`sidx[np.r_[np.flatnonzero(coarse_pos[1:] != coarse_pos[:-1]), -1]]`: the
group boundaries are computed on the argsorted `coarse_pos` sequence, and the
lexsort leaves that sequence pointwise unchanged (proved below in
`map_coarse_sort2_eq_sort1`), so the selected indices are exactly the last
position of each equal-coarse run of the lexsorted order. -/
def keepLastOfRuns : List Entry → List Entry
  | [] => []
  | [e] => [e]
  | e :: f :: rest =>
    if e.2.1 = f.2.1 then keepLastOfRuns (f :: rest)
    else e :: keepLastOfRuns (f :: rest)

/-- First sorting pass of the decimation: `sorted_balls = np.argsort(coarse_pos)`.
`np.argsort`'s default kind is quicksort (introsort), which numpy documents as
NOT stable for equal keys, so the relative order of equal-key entries in its
output is unspecified once the array exceeds numpy's internal insertion-sort
threshold.  The model uses the stable `insertionSort` as one concrete resolution
of that freedom; consequently the only decimation facts asserted as claim
theorems are tie-order-invariant (exactly one survivor per coarse cell, and the
survivor has maximal age in its cell), which hold under every resolution.
Concrete evaluations on arrays below the threshold (such as the two-entry tie
example) do match numpy exactly, since numpy insertion-sorts those. -/
def decimationSort1 (entries : List Entry) : List Entry :=
  entries.insertionSort coarseLe

/-- Second sorting pass: `sidx = np.lexsort([balls_age, coarse_pos])`. -/
def decimationSort2 (entries : List Entry) : List Entry :=
  (decimationSort1 entries).insertionSort coarseAgeLe

/-- The slot indices of the balls each kept as the single survivor of its
coarse-grid cell: `self.unique_valid_balls`. -/
def decimationKeep (entries : List Entry) : List ℕ :=
  (keepLastOfRuns (decimationSort2 entries)).map fun e => e.1

/-- The indices passing the off-edge check:
`valid_balls_idx = np.nonzero(np.logical_not(off_edges_mask))[0]`. -/
def offEdgeSurvivors (p : Params) (pos : List Pos3) : List ℕ :=
  (List.range pos.length).filter fun i => !offEdgeO p (pos.getD i sentinel)

/-- Truncated integer x-coordinate of slot `i` (`pos2[0]`). -/
def txOf (pos : List Pos3) (i : ℕ) : ℤ := truncQ (((pos.getD i sentinel).1).getD 0)

/-- Truncated integer y-coordinate of slot `i` (`pos2[1]`). -/
def tyOf (pos : List Pos3) (i : ℕ) : ℤ := truncQ (((pos.getD i sentinel).2.1).getD 0)

/-- Truncated integer z-coordinate of slot `i` (`pos2[2]`). -/
def tzOf (pos : List Pos3) (i : ℕ) : ℤ := truncQ (((pos.getD i sentinel).2.2).getD 0)

/-- Survivors of the polarity check:
`np.sign(self.image[pos2[1], pos2[0]]) * self.polarity >= 0`. -/
def polaritySurvivors (p : Params) (image : ℤ → ℤ → ℚ) (pos : List Pos3)
    (check_polarity : Bool) : List ℕ :=
  if check_polarity then
    (offEdgeSurvivors p pos).filter fun i =>
      decide (0 ≤ qsign (image (txOf pos i) (tyOf pos i)) * p.polarity)
  else offEdgeSurvivors p pos

/-- Survivors of the noise check: `np.abs(self.image[pos2[1], pos2[0]]) > self.noise_level`. -/
def noiseSurvivors (p : Params) (image : ℤ → ℤ → ℚ) (pos : List Pos3)
    (check_polarity check_noise : Bool) : List ℕ :=
  if check_noise then
    (polaritySurvivors p image pos check_polarity).filter fun i =>
      decide (p.noise_level < |image (txOf pos i) (tyOf pos i)|)
  else polaritySurvivors p image pos check_polarity

/-- Survivors of the sinking check:
`pos2[2] > self.surface[pos2[1], pos2[0]] - self.min_ds_`. -/
def sinkSurvivors (p : Params) (image surface : ℤ → ℤ → ℚ) (pos : List Pos3)
    (check_polarity check_noise check_sinking : Bool) : List ℕ :=
  if check_sinking then
    (noiseSurvivors p image pos check_polarity check_noise).filter fun i =>
      decide (surface (txOf pos i) (tyOf pos i) - min_ds_ p < (tzOf pos i : ℚ))
  else noiseSurvivors p image pos check_polarity check_noise

/-- The decimation entries of the fully checked survivors, listed in
ascending slot order: slot, linear coarse index of the (float) position, age. -/
def checkedEntries (p : Params) (image surface : ℤ → ℤ → ℚ) (pos : List Pos3)
    (ages : List ℕ) (cp cn cs : Bool) : List Entry :=
  (sinkSurvivors p image surface pos cp cn cs).map fun i =>
    (i, coarseOfPos3 p (pos.getD i sentinel), ages.getD i 0)

/-- Result of `MBT.set_bad_balls`: the updated masks and the slots kept as the
unique survivor of their coarse-grid cell. -/
structure SBBResult where
  bad_balls_mask : List Bool
  new_valid_balls_mask : List Bool
  unique_valid_balls : List ℕ
deriving DecidableEq

/-- The masks produced by a non-aborting `set_bad_balls` run:
`bad_balls_mask` is all-true except at the slots kept by the decimation, and
`new_valid_balls_mask` is its complement. -/
def sbbOkResult (p : Params) (image surface : ℤ → ℤ → ℚ) (pos : List Pos3)
    (ages : List ℕ) (cp cn cs : Bool) : SBBResult :=
  { bad_balls_mask := (List.range pos.length).map fun i =>
      !decide (i ∈ decimationKeep (checkedEntries p image surface pos ages cp cn cs))
    new_valid_balls_mask := ((List.range pos.length).map fun i =>
      !decide (i ∈ decimationKeep (checkedEntries p image surface pos ages cp cn cs))).map (!·)
    unique_valid_balls := decimationKeep (checkedEntries p image surface pos ages cp cn cs) }

/-- `MBT.set_bad_balls(check_polarity, check_noise, check_sinking)`.
The off-edge check runs first; then the polarity, noise and sinking checks
each abort (`sys.exit(1)`) when no ball survives the checks so far; the
remaining balls are decimated to one per coarse-grid cell (the oldest, by a
stable sort keyed on age). -/
def set_bad_balls (p : Params) (image surface : ℤ → ℤ → ℚ) (pos : List Pos3)
    (ages : List ℕ) (check_polarity check_noise check_sinking : Bool) :
    Except AbortError SBBResult :=
  if check_polarity && (polaritySurvivors p image pos check_polarity).isEmpty then
    .error .polarityAbort
  else if check_noise && (noiseSurvivors p image pos check_polarity check_noise).isEmpty then
    .error .noiseAbort
  else if check_sinking &&
      (sinkSurvivors p image surface pos check_polarity check_noise check_sinking).isEmpty then
    .error .sinkingAbort
  else
    .ok (sbbOkResult p image surface pos ages check_polarity check_noise check_sinking)

/-- Mutable state of one `MBT` instance: the fixed-capacity parallel arrays,
the active-ball count, and the per-frame history snapshots (`self.ballpos`,
`self.balls_age_t`, `self.valid_balls_mask_t`; the source preallocates the
history over `nt` frames and fills column `n` at frame `n`, which appending
one snapshot per processed frame reproduces). -/
structure RunState where
  pos : List Pos3
  vel : List Pos3
  balls_age : List ℕ
  bad_balls_mask : List Bool
  new_valid_balls_mask : List Bool
  nballs : ℕ
  pos_t : List (List Pos3)
  age_t : List (List ℕ)
  valid_t : List (List Bool)
deriving DecidableEq

/-- Overwrite `l[start : start + vals.length]` with `vals`, the semantics of
the numpy slice assignment `arr[start:start+k] = vals` (silently clipped at
the end of `l`; the source would raise there, and no verified statement
reaches that case). -/
def writeFrom {α : Type} : List α → ℕ → List α → List α
  | [], _, _ => []
  | a :: l, s + 1, vs => a :: writeFrom l s vs
  | a :: l, 0, [] => a :: l
  | _ :: l, 0, v :: vs => v :: writeFrom l 0 vs

/-- The low 32 bits of a nonnegative int64 value reinterpreted as a signed
int32 (little-endian), modelling one half of `.view('int32')`. -/
def toSigned32 (n : ℕ) : ℤ :=
  if n % 2 ^ 32 < 2 ^ 31 then (n % 2 ^ 32 : ℤ) else (n % 2 ^ 32 : ℤ) - 2 ^ 32

/-- `arr.view('int32')` on a little-endian int64 coordinate array: every
element becomes its (low, high) pair of signed 32-bit halves. -/
def viewInt32 (xs : List ℕ) : List ℤ :=
  xs.flatMap fun v => [toSigned32 (v % 2 ^ 64), toSigned32 (v % 2 ^ 64 / 2 ^ 32)]

/-- The (x, y) float positions of the currently valid balls
(`self.pos[0:2, self.new_valid_balls_mask]`; valid balls always have defined
coordinates, so the NaN default 0 is never read on reachable states). -/
def validBallPositions (st : RunState) : List (ℚ × ℚ) :=
  ((st.new_valid_balls_mask.zip st.pos).filter fun z => z.1).map fun z =>
    ((z.2.1).getD 0, (z.2.2.1).getD 0)

/-- The emergence distance test `distance_min > self.ballspacing + 1` for one
candidate, with the Euclidean distances compared through their squares. -/
def farFromValidBalls (p : Params) (st : RunState) (c : ℕ × ℕ) : Bool :=
  (validBallPositions st).all fun b =>
    decide (((p.ballspacing : ℚ) + 1) ^ 2 < ((c.1 : ℚ) - b.1) ^ 2 + ((c.2 : ℚ) - b.2) ^ 2)

/-- The new integer (x, y) pairs that `populate_emergence` will append: the
candidates that pass the distance test, pushed through the int64-to-int32
reinterpreting view, and filtered by the off-edge test. -/
def newEmergencePositions (p : Params) (extr : List (ℕ × ℕ)) (st : RunState) :
    List (ℤ × ℤ) :=
  ((viewInt32 ((extr.filter (farFromValidBalls p st)).map fun c => c.1)).zip
    (viewInt32 ((extr.filter (farFromValidBalls p st)).map fun c => c.2))).filter
    fun q => !offEdgeQ p (q.1 : ℚ) (q.2 : ℚ)

/-- `MBT.populate_emergence`: place new balls on the extrema candidates of
the current raw frame that are farther than `ballspacing + 1` from every
valid ball and whose footprint stays inside the frame.  The new balls are
written into the trailing slots starting at `self.nballs`, get zero velocity
and a z from `put_balls_on_surface`, are marked not-bad (hence valid), and
`self.nballs` grows by their number. -/
def populate_emergence (p : Params) (extr : List (ℕ × ℕ)) (surface : ℤ → ℤ → ℚ)
    (st : RunState) : RunState :=
  if (extr.filter (farFromValidBalls p st)).isEmpty then st
  else
    { st with
      pos := writeFrom st.pos st.nballs ((newEmergencePositions p extr st).map fun q =>
        (some (q.1 : ℚ), some (q.2 : ℚ),
         some (put_balls_on_surface surface (q.1 : ℚ) (q.2 : ℚ) p.rs p.dp)))
      vel := writeFrom st.vel st.nballs
        (List.replicate (newEmergencePositions p extr st).length zeroTriple)
      bad_balls_mask := writeFrom st.bad_balls_mask st.nballs
        (List.replicate (newEmergencePositions p extr st).length false)
      new_valid_balls_mask := (writeFrom st.bad_balls_mask st.nballs
        (List.replicate (newEmergencePositions p extr st).length false)).map (!·)
      nballs := st.nballs + (newEmergencePositions p extr st).length }

/-- The surface passed to the integrator at intermediate step `i`:
`surface_i = (self.surface*(self.intsteps - i) + next_surface * i)/self.intsteps`. -/
def interpSurface (surface next_surface : ℤ → ℤ → ℚ) (intsteps i : ℕ) :
    ℤ → ℤ → ℚ :=
  fun x y => (surface x y * ((intsteps : ℚ) - i) + next_surface x y * i) / intsteps

/-- Modelled from the spec: one sub-step of `blt.integrate_motion` of the
absent module `balltrack.py`.  Per spec section 4.4 every ball is updated:
a ball whose footprint is off-edge gets zero force, the others a restoring
force given by the abstract force law `forceLaw` (no verified claim depends
on its exact formula); the velocity decays by the per-axis damping factor
before the force is added (`v ← v·damp + force`), and then `p ← p + v`. -/
def integrate_motion (forceLaw : (ℤ → ℤ → ℚ) → Pos3 → ℚ × ℚ × ℚ) (p : Params)
    (surface : ℤ → ℤ → ℚ) (st : RunState) : RunState :=
  let newVel : List Pos3 := List.zipWith (fun q v =>
    let f := if offEdgeO p q then ((0 : ℚ), (0 : ℚ), (0 : ℚ)) else forceLaw surface q
    (oAdd (oMul v.1 (some p.e_tdx_)) (some f.1),
     oAdd (oMul v.2.1 (some p.e_tdy_)) (some f.2.1),
     oAdd (oMul v.2.2 (some p.e_tdz_)) (some f.2.2))) st.pos st.vel
  { st with
    pos := List.zipWith (fun q v => (oAdd q.1 v.1, oAdd q.2.1 v.2.1, oAdd q.2.2 v.2.2))
      st.pos newVel
    vel := newVel }

/-- The collaborator functions a run consumes: the data cube (`frames`), the
surface preparation function (`prep_function`), the extrema detector
(`get_local_extrema`, whose peak finding lives in scikit-image), and the
abstract restoring-force law of the integrator. -/
structure RunArgs where
  p : Params
  frames : ℕ → ℤ → ℤ → ℚ
  prep : (ℤ → ℤ → ℚ) → ℤ → ℤ → ℚ
  extrema : (ℤ → ℤ → ℚ) → List (ℕ × ℕ)
  forceLaw : (ℤ → ℤ → ℚ) → Pos3 → ℚ × ℚ × ℚ

/-- The prepared surface of frame `n`: `self.surface = self.prep_function(self.image)`. -/
def surfaceAt (A : RunArgs) (n : ℕ) : ℤ → ℤ → ℚ := A.prep (A.frames n)

/-- The next-frame surface used for interpolation; at the last frame
(`n = nt - 1`) the source sets `next_surface = self.surface`. -/
def nextSurfaceAt (A : RunArgs) (n : ℕ) : ℤ → ℤ → ℚ :=
  if n < A.p.nt - 1 then A.prep (A.frames (n + 1)) else surfaceAt A n

/-- The emergence-population and integration part of one frame of
`track_all_frames`: populate (for `n > 0`, when enabled), then run the
`intsteps` intermediate integration steps over the interpolated surfaces. -/
def preStep (A : RunArgs) (n : ℕ) (st : RunState) : RunState :=
  let st1 := if A.p.track_emergence && decide (0 < n) then
    populate_emergence A.p (A.extrema (A.frames n)) (surfaceAt A n) st else st
  (List.range A.p.intsteps).foldl (fun s i =>
    integrate_motion A.forceLaw A.p (interpSurface (surfaceAt A n) (nextSurfaceAt A n)
      A.p.intsteps i) s) st1

/-- The bookkeeping after `set_bad_balls` in `track_all_frames`: flag bad
balls with the sentinel position and NaN velocity, increment the age of the
valid balls, and append the per-frame snapshots. -/
def finalizeFrame (st : RunState) (r : SBBResult) : RunState :=
  { pos := List.zipWith (fun b q => if b then sentinel else q) r.bad_balls_mask st.pos
    vel := List.zipWith (fun b v => if b then nanTriple else v) r.bad_balls_mask st.vel
    balls_age := List.zipWith (fun v a => if v then a + 1 else a)
      r.new_valid_balls_mask st.balls_age
    bad_balls_mask := r.bad_balls_mask
    new_valid_balls_mask := r.new_valid_balls_mask
    nballs := st.nballs
    pos_t := st.pos_t ++
      [List.zipWith (fun b q => if b then sentinel else q) r.bad_balls_mask st.pos]
    age_t := st.age_t ++
      [List.zipWith (fun v a => if v then a + 1 else a) r.new_valid_balls_mask st.balls_age]
    valid_t := st.valid_t ++ [r.new_valid_balls_mask] }

/-- One frame of `MBT.track_all_frames` (frame index `n`): emergence and
integration, then `set_bad_balls` with its three checks enabled, then
flagging, age increment and history snapshots.  A total invalidation abort
propagates as the run's terminal error. -/
def trackStep (A : RunArgs) (n : ℕ) (st : RunState) : Except AbortError RunState :=
  match set_bad_balls A.p (A.frames n) (surfaceAt A n) (preStep A n st).pos
      (preStep A n st).balls_age true true true with
  | .error e => .error e
  | .ok r => .ok (finalizeFrame (preStep A n st) r)

/-- `self.nballs_max` for the default `init_pos=None` construction:
half the pixel count. -/
def nballs_max (p : Params) : ℕ := p.nx * p.ny / 2

/-- The initial `MBT` state (the `init_pos=None` branch of `MBT.__init__`):
seeds from the extrema detector on frame 0, placed on the initial surface
with `put_balls_on_surface`; positions elsewhere hold the sentinel -1,
velocities are zero, ages start at 1, `bad_balls_mask` starts all-false and
`new_valid_balls_mask` is true exactly on the seeded slots. -/
def initMBT (A : RunArgs) : RunState :=
  let cap := nballs_max A.p
  let surface0 := A.prep (A.frames 0)
  let seeds := A.extrema (A.frames 0)
  let n := seeds.length
  let seedTriples : List Pos3 := seeds.map fun s =>
    (some (s.1 : ℚ), some (s.2 : ℚ),
     some (put_balls_on_surface surface0 (s.1 : ℚ) (s.2 : ℚ) A.p.rs A.p.dp))
  { pos := writeFrom (List.replicate cap sentinel) 0 seedTriples
    vel := List.replicate cap zeroTriple
    balls_age := List.replicate cap 1
    bad_balls_mask := List.replicate cap false
    new_valid_balls_mask := (List.range cap).map fun i => decide (i < n)
    nballs := n
    pos_t := []
    age_t := []
    valid_t := [] }

/-- The run after `n` processed frames: `initMBT` stepped through frames
`0, …, n-1` of `track_all_frames`, stopping at the first abort. -/
def runUpTo (A : RunArgs) : ℕ → Except AbortError RunState
  | 0 => .ok (initMBT A)
  | n + 1 => (runUpTo A n).bind (trackStep A n)

/-- Strict slot order on decimation entries (the order in which
`checkedEntries` lists them). -/
def slotLt (a b : Entry) : Prop := a.1 < b.1

/-- Strict lexicographic order by (coarse index, age, slot).  The decimation
pipeline produces a list sorted this way: the two sorts order by (coarse,
age) and their stability resolves ties by the original ascending slot
order. -/
def entryLt (a b : Entry) : Prop :=
  a.2.1 < b.2.1 ∨ (a.2.1 = b.2.1 ∧ (a.2.2 < b.2.2 ∨ (a.2.2 = b.2.2 ∧ a.1 < b.1)))

/-- All per-slot arrays of a state have the configured capacity
`nballs_max` as their length (the numpy arrays are preallocated with
`self.nballs_max` slots and never resized). -/
def stateLens (p : Params) (st : RunState) : Prop :=
  st.pos.length = nballs_max p ∧ st.vel.length = nballs_max p ∧
  st.balls_age.length = nballs_max p ∧ st.bad_balls_mask.length = nballs_max p ∧
  st.new_valid_balls_mask.length = nballs_max p

/-- An active slot that has been invalidated: flagged bad, carrying the
sentinel position (or the NaN position it evolves into under integration)
and a NaN velocity.  The getD defaults are chosen so that every conjunct
also holds vacuously for an index beyond the array length. -/
def deadSlot (st : RunState) (slot : ℕ) : Prop :=
  slot < st.nballs ∧
  st.new_valid_balls_mask.getD slot false = false ∧
  st.bad_balls_mask.getD slot true = true ∧
  (st.pos.getD slot sentinel = sentinel ∨ st.pos.getD slot sentinel = nanTriple) ∧
  st.vel.getD slot nanTriple = nanTriple

/-- The recorded age of slot `slot` at frame `n` of a run that processed at
least `n + 1` frames (`self.balls_age_t[slot, n]`). -/
def ageRecordAt (A : RunArgs) (n slot : ℕ) : Option ℕ :=
  (runUpTo A (n + 1)).toOption.map fun s => (s.age_t.getD n []).getD slot 0

/-- The recorded validity of slot `slot` at frame `n`
(`self.valid_balls_mask_t[slot, n]`). -/
def validRecordAt (A : RunArgs) (n slot : ℕ) : Option Bool :=
  (runUpTo A (n + 1)).toOption.map fun s => (s.valid_t.getD n []).getD slot false

/-- The recorded position of slot `slot` at frame `n` (`self.ballpos[:, slot, n]`). -/
def posRecordAt (A : RunArgs) (n slot : ℕ) : Option Pos3 :=
  (runUpTo A (n + 1)).toOption.map fun s => (s.pos_t.getD n []).getD slot sentinel

/-- The in-memory velocity of slot `slot` right after frame `n` was processed
(`self.vel[:, slot]`; the velocity has no history array). -/
def velNowAt (A : RunArgs) (n slot : ℕ) : Option Pos3 :=
  (runUpTo A (n + 1)).toOption.map fun s => s.vel.getD slot nanTriple

/-- Rounding to the nearest integer; the spec's notion of the "rounded"
pixel of a ball, to be compared with the truncation the source applies. -/
def roundQ (q : ℚ) : ℤ := ⌊q + 1 / 2⌋

/-- The coarse-grid row index as the spec describes it (clamped to
`ceil(ny/ballspacing)` rows).  This definition follows the spec's words and
exists only to be compared with the source's `coarse_grid_pos`. -/
def ycoarseSpec (p : Params) (y : ℚ) : ℕ :=
  (clip0 ⌊y / (p.ballspacing : ℚ)⌋ (((coarseDimsSpec p).2 : ℤ) - 1)).toNat

/-- A small 8x4 configuration shared by the concrete runs below. -/
def exParams (em : Bool) : Params :=
  { nx := 8, ny := 4, rs := 1, dp := 1, ballspacing := 2, intsteps := 0, nt := 2,
    noise_level := 0, polarity := 1, track_emergence := em,
    e_tdx_ := 1, e_tdy_ := 1, e_tdz_ := 1 }

/-- A 20x20 configuration with coarse cells of side 10, for the
`set_bad_balls`-level scenarios. -/
def exParams20 : Params :=
  { nx := 20, ny := 20, rs := 1, dp := 1, ballspacing := 10, intsteps := 1, nt := 1,
    noise_level := 20, polarity := 1, track_emergence := false,
    e_tdx_ := 1, e_tdy_ := 1, e_tdz_ := 1 }

/-- A configuration with a frame wider than tall (nx = 10, ny = 30), where
the coarse-grid dimensions of the source and of the spec differ. -/
def exParams8 : Params :=
  { nx := 10, ny := 30, rs := 2, dp := 1, ballspacing := 10, intsteps := 1, nt := 1,
    noise_level := 20, polarity := 1, track_emergence := false,
    e_tdx_ := 1, e_tdy_ := 1, e_tdz_ := 1 }

/-- The constant all-ones frame. -/
def exImgOne : ℤ → ℤ → ℚ := fun _ _ => 1

/-- Two seeds in distinct coarse cells on constant data; both stay valid. -/
def exArgsC1 : RunArgs :=
  { p := exParams false
    frames := fun _ => exImgOne
    prep := fun img => img
    extrema := fun _ => [(2, 2), (6, 2)]
    forceLaw := fun _ _ => (0, 0, 0) }

/-- Two seeds of which the second sits on an opposite-polarity pixel and is
invalidated at frame 0. -/
def exArgsB : RunArgs :=
  { p := exParams false
    frames := fun _ => fun x y => if x = 6 ∧ y = 2 then -1 else 1
    prep := fun img => img
    extrema := fun _ => [(2, 2), (6, 2)]
    forceLaw := fun _ _ => (0, 0, 0) }

/-- Emergence scenario: one seed at frame 0 and a fresh candidate appearing
at frame 1, far from the existing ball. -/
def exArgsE : RunArgs :=
  { p := exParams true
    frames := fun n => if n = 0 then exImgOne else fun _ _ => 2
    prep := fun img => img
    extrema := fun img => if img 0 0 = 1 then [(2, 2)] else [(6, 2)]
    forceLaw := fun _ _ => (0, 0, 0) }

/-- A run whose only ball sits on opposite-polarity data from frame 0 on:
total invalidation at frame 0. -/
def exArgsDa : RunArgs :=
  { p := exParams false
    frames := fun _ => fun _ _ => -1
    prep := fun img => img
    extrema := fun _ => [(2, 2)]
    forceLaw := fun _ _ => (0, 0, 0) }

/-- A run whose data flips to the opposite polarity at frame 1: total
invalidation at frame 1. -/
def exArgsDb : RunArgs :=
  { p := exParams false
    frames := fun n => if n = 0 then exImgOne else fun _ _ => -1
    prep := fun img => img
    extrema := fun _ => [(2, 2)]
    forceLaw := fun _ _ => (0, 0, 0) }

/-- Two balls of the 20x20 scenario sharing the coarse cell at the origin. -/
def c2pos : List Pos3 := [(some 5, some 5, some 1), (some 6, some 5, some 1)]

/-- Constant frame with value 30 (above the noise level, positive polarity). -/
def c2img : ℤ → ℤ → ℚ := fun _ _ => 30

/-- Flat zero surface for the `set_bad_balls`-level scenarios. -/
def c2surf : ℤ → ℤ → ℚ := fun _ _ => 0

/-- The `set_bad_balls` outcome for `c2pos` with ages 7 and 3: the older
slot 0 is kept. -/
def c2res : SBBResult :=
  { bad_balls_mask := [false, true]
    new_valid_balls_mask := [true, false]
    unique_valid_balls := [0] }

/-- A ball at x = 5.6 (truncating to pixel 5, rounding to pixel 6) plus a
far-away companion that keeps the run alive. -/
def c6pos : List Pos3 := [(some (28 / 5), some 5, some 1), (some 12, some 2, some 1)]

/-- A frame that is negative exactly on the column x = 6. -/
def c6img : ℤ → ℤ → ℚ := fun x _ => if x = 6 then -30 else 30

/-- A ball at x = 6.4 (truncating to the negative pixel 6) plus a far-away
companion that keeps the run alive. -/
def c6posW : List Pos3 := [(some (32 / 5), some 5, some 1), (some 12, some 2, some 1)]

/-- The `set_bad_balls` outcome for `c6posW`: the ball on the
opposite-polarity pixel is flagged, the companion survives. -/
def c6resW : SBBResult :=
  { bad_balls_mask := [true, false]
    new_valid_balls_mask := [false, true]
    unique_valid_balls := [1] }

/-- A single ball sitting on opposite-polarity data. -/
def c7pos : List Pos3 := [(some 2, some 2, some 1)]

/-- Constant negative frame. -/
def c7img : ℤ → ℤ → ℚ := fun _ _ => -30

/-! ### List helper lemmas -/

theorem getD_map_range {α : Type} (f : ℕ → α) (n i : ℕ) (d : α) :
    ((List.range n).map f).getD i d = if i < n then f i else d := by
  rw [List.getD_eq_getElem?_getD, List.getElem?_map]
  by_cases h : i < n
  · rw [List.getElem?_range h]
    simp [h]
  · rw [List.getElem?_eq_none (by simpa using Nat.le_of_not_lt h)]
    simp [h]

theorem getD_zipWith {α β γ : Type} (f : α → β → γ) :
    ∀ (l1 : List α) (l2 : List β) (i : ℕ) (d1 : α) (d2 : β) (d : γ),
      i < l1.length → i < l2.length →
      (List.zipWith f l1 l2).getD i d = f (l1.getD i d1) (l2.getD i d2)
  | [], _, i, _, _, _, h1, _ => absurd h1 (by simp)
  | _ :: _, [], i, _, _, _, _, h2 => absurd h2 (by simp)
  | a :: l1, b :: l2, 0, _, _, _, _, _ => rfl
  | a :: l1, b :: l2, i + 1, d1, d2, d, h1, h2 =>
      getD_zipWith f l1 l2 i d1 d2 d (by simpa using h1) (by simpa using h2)

theorem length_writeFrom {α : Type} :
    ∀ (l : List α) (s : ℕ) (v : List α), (writeFrom l s v).length = l.length
  | [], _, _ => rfl
  | a :: l, s + 1, vs => by simp [writeFrom, length_writeFrom l s vs]
  | a :: l, 0, [] => rfl
  | _ :: l, 0, v :: vs => by simp [writeFrom, length_writeFrom l 0 vs]

theorem getD_writeFrom_lt {α : Type} :
    ∀ (l : List α) (s : ℕ) (v : List α) (i : ℕ) (d : α), i < s →
      (writeFrom l s v).getD i d = l.getD i d
  | [], _, _, _, _, _ => rfl
  | a :: l, s + 1, vs, 0, d, _ => rfl
  | a :: l, s + 1, vs, i + 1, d, h => by
      simpa [writeFrom] using getD_writeFrom_lt l s vs i d (Nat.lt_of_succ_lt_succ h)
  | a :: l, 0, _, i, d, h => absurd h (Nat.not_lt_zero i)

theorem getD_writeFrom_ge {α : Type} :
    ∀ (l : List α) (s : ℕ) (v : List α) (i : ℕ) (d : α), s + v.length ≤ i →
      (writeFrom l s v).getD i d = l.getD i d
  | [], _, _, _, _, _ => rfl
  | a :: l, s + 1, vs, 0, d, h => by omega
  | a :: l, s + 1, vs, i + 1, d, h => by
      simpa [writeFrom] using getD_writeFrom_ge l s vs i d (by omega)
  | a :: l, 0, [], i, d, h => rfl
  | _ :: l, 0, v :: vs, 0, d, h => by simp at h
  | _ :: l, 0, v :: vs, i + 1, d, h => by
      simpa [writeFrom] using getD_writeFrom_ge l 0 vs i d (by simpa using Nat.le_of_succ_le_succ h)

theorem getD_writeFrom_mid {α : Type} :
    ∀ (l : List α) (s : ℕ) (v : List α) (i : ℕ) (d : α),
      s ≤ i → i - s < v.length → i < l.length →
      (writeFrom l s v).getD i d = v.getD (i - s) d
  | [], _, _, _, _, _, _, h3 => absurd h3 (by simp)
  | a :: l, s + 1, vs, 0, d, h1, _, _ => absurd h1 (by omega)
  | a :: l, s + 1, vs, i + 1, d, h1, h2, h3 => by
      have := getD_writeFrom_mid l s vs i d (Nat.le_of_succ_le_succ h1)
        (by omega) (by simpa using h3)
      simpa [writeFrom, Nat.succ_sub_succ] using this
  | a :: l, 0, [], i, d, _, h2, _ => absurd h2 (by simp)
  | _ :: l, 0, v :: vs, 0, d, _, _, _ => rfl
  | _ :: l, 0, v :: vs, i + 1, d, _, h2, h3 => by
      simpa [writeFrom] using getD_writeFrom_mid l 0 vs i d (Nat.zero_le i)
        (by simpa using h2) (by simpa using h3)

theorem mem_mem_ne_sublist {α : Type} :
    ∀ (l : List α) (a b : α), a ∈ l → b ∈ l → a ≠ b → ([a, b]).Sublist l ∨ ([b, a]).Sublist l := by
  intro l
  induction l with
  | nil => intro a b ha; simp at ha
  | cons x t ih =>
    intro a b ha hb hne
    rcases List.mem_cons.mp ha with rfl | haT
    · have hbT : b ∈ t := by
        rcases List.mem_cons.mp hb with rfl | h
        · exact absurd rfl hne
        · exact h
      exact Or.inl ((List.singleton_sublist.mpr hbT).cons₂ a)
    · rcases List.mem_cons.mp hb with rfl | hbT
      · exact Or.inr ((List.singleton_sublist.mpr haT).cons₂ b)
      · rcases ih a b haT hbT hne with h | h
        · exact Or.inl (h.cons x)
        · exact Or.inr (h.cons x)

theorem sublist_pair_antisymm {α : Type} :
    ∀ (l : List α), l.Nodup → ∀ a b : α, ([a, b]).Sublist l → ([b, a]).Sublist l → a = b := by
  intro l
  induction l with
  | nil => intro _ a b h; simp at h
  | cons x t ih =>
    intro hnd a b h1 h2
    obtain ⟨hx, hndt⟩ := List.nodup_cons.mp hnd
    cases h1 with
    | cons _ h1t =>
      cases h2 with
      | cons _ h2t => exact ih hndt a b h1t h2t
      | cons₂ _ h2t =>
        exact absurd (h1t.subset (by simp)) hx
    | cons₂ _ h1t =>
      cases h2 with
      | cons _ h2t =>
        exact absurd (h2t.subset (by simp)) hx
      | cons₂ _ h2t => rfl

/-! ### Decimation pipeline lemmas -/

theorem keepLastOfRuns_sublist : ∀ l : List Entry, (keepLastOfRuns l).Sublist l
  | [] => by simp [keepLastOfRuns]
  | [e] => by simp [keepLastOfRuns]
  | e :: f :: rest => by
      rw [keepLastOfRuns]
      split
      · exact (keepLastOfRuns_sublist (f :: rest)).cons e
      · exact (keepLastOfRuns_sublist (f :: rest)).cons₂ e

theorem keepLastOfRuns_exists_coarse :
    ∀ l : List Entry, ∀ g ∈ l, ∃ e ∈ keepLastOfRuns l, e.2.1 = g.2.1
  | [], g, hg => absurd hg (by simp)
  | [e], g, hg => ⟨e, by simp [keepLastOfRuns], by rcases List.mem_singleton.mp hg with rfl; rfl⟩
  | e :: f :: rest, g, hg => by
      rw [keepLastOfRuns]
      split
      next heq =>
        rcases List.mem_cons.mp hg with rfl | hgt
        · obtain ⟨k, hk, hkc⟩ := keepLastOfRuns_exists_coarse (f :: rest) f (by simp)
          exact ⟨k, hk, by rw [hkc, ← heq]⟩
        · exact keepLastOfRuns_exists_coarse (f :: rest) g hgt
      next hne =>
        rcases List.mem_cons.mp hg with rfl | hgt
        · exact ⟨g, by simp, rfl⟩
        · obtain ⟨k, hk, hkc⟩ := keepLastOfRuns_exists_coarse (f :: rest) g hgt
          exact ⟨k, List.mem_cons_of_mem _ hk, hkc⟩

theorem keepLastOfRuns_pairwise_lt :
    ∀ l : List Entry, l.Pairwise (fun a b => a.2.1 ≤ b.2.1) →
      (keepLastOfRuns l).Pairwise fun a b => a.2.1 < b.2.1
  | [], _ => by simp [keepLastOfRuns]
  | [e], _ => by simp [keepLastOfRuns]
  | e :: f :: rest, hP => by
      obtain ⟨he, htail⟩ := List.pairwise_cons.mp hP
      rw [keepLastOfRuns]
      split
      next heq => exact keepLastOfRuns_pairwise_lt (f :: rest) htail
      next hne =>
        refine List.pairwise_cons.mpr ⟨?_, keepLastOfRuns_pairwise_lt (f :: rest) htail⟩
        intro g hg
        have hgt : g ∈ f :: rest := (keepLastOfRuns_sublist (f :: rest)).subset hg
        have hef : e.2.1 < f.2.1 :=
          lt_of_le_of_ne (he f (by simp)) hne
        rcases List.mem_cons.mp hgt with rfl | hgrest
        · exact hef
        · exact lt_of_lt_of_le hef ((List.pairwise_cons.mp htail).1 g hgrest)

theorem keepLastOfRuns_max :
    ∀ l : List Entry, l.Pairwise entryLt →
      ∀ e ∈ keepLastOfRuns l, ∀ g ∈ l, g.2.1 = e.2.1 → g ≠ e →
        g.2.2 < e.2.2 ∨ (g.2.2 = e.2.2 ∧ g.1 < e.1)
  | [], _, e, he, _, _, _, _ => absurd he (by simp [keepLastOfRuns])
  | [x], _, e, he, g, hg, hc, hne => by
      rcases List.mem_singleton.mp (by simpa [keepLastOfRuns] using he) with rfl
      rcases List.mem_singleton.mp hg with rfl
      exact absurd rfl hne
  | x :: f :: rest, hP, e, he, g, hg, hc, hne => by
      obtain ⟨hx, htail⟩ := List.pairwise_cons.mp hP
      rw [keepLastOfRuns] at he
      split at he
      next heq =>
        rcases List.mem_cons.mp hg with rfl | hgt
        · have heT : e ∈ f :: rest := (keepLastOfRuns_sublist (f :: rest)).subset he
          have := hx e heT
          rcases this with hlt | ⟨_, hin⟩
          · exact absurd hc (Nat.ne_of_lt hlt)
          · exact hin
        · exact keepLastOfRuns_max (f :: rest) htail e he g hgt hc hne
      next hned =>
        have hxlt : ∀ y ∈ f :: rest, x.2.1 < y.2.1 := by
          intro y hy
          have hxf : x.2.1 < f.2.1 := by
            rcases hx f (by simp) with hlt | ⟨heq2, _⟩
            · exact hlt
            · exact absurd heq2 hned
          rcases List.mem_cons.mp hy with rfl | hyrest
          · exact hxf
          · have : f.2.1 ≤ y.2.1 := by
              rcases (List.pairwise_cons.mp htail).1 y hyrest with hlt | ⟨heq2, _⟩
              · exact Nat.le_of_lt hlt
              · exact Nat.le_of_eq heq2
            exact lt_of_lt_of_le hxf this
        rcases List.mem_cons.mp he with rfl | heK
        · rcases List.mem_cons.mp hg with rfl | hgt
          · exact absurd rfl hne
          · exact absurd hc (Nat.ne_of_gt (hxlt g hgt))
        · have heT : e ∈ f :: rest := (keepLastOfRuns_sublist (f :: rest)).subset heK
          rcases List.mem_cons.mp hg with rfl | hgt
          · exact absurd hc (Nat.ne_of_lt (hxlt e heT))
          · exact keepLastOfRuns_max (f :: rest) htail e heK g hgt hc hne

theorem perm_decimationSort2 (entries : List Entry) :
    (decimationSort2 entries).Perm entries :=
  (List.perm_insertionSort coarseAgeLe (decimationSort1 entries)).trans
    (List.perm_insertionSort coarseLe entries)

theorem sorted_decimationSort2 (entries : List Entry) :
    (decimationSort2 entries).Pairwise coarseAgeLe :=
  List.sorted_insertionSort coarseAgeLe (decimationSort1 entries)

theorem pair_sublist_of_pairwise_slotLt {l : List Entry} (hP : l.Pairwise slotLt)
    {a b : Entry} (ha : a ∈ l) (hb : b ∈ l) (hlt : a.1 < b.1) : ([a, b]).Sublist l := by
  induction l with
  | nil => simp at ha
  | cons x t ih =>
    obtain ⟨hx, ht⟩ := List.pairwise_cons.mp hP
    rcases List.mem_cons.mp ha with rfl | haT
    · have hbT : b ∈ t := by
        rcases List.mem_cons.mp hb with rfl | h
        · exact absurd hlt (lt_irrefl _)
        · exact h
      exact (List.singleton_sublist.mpr hbT).cons₂ a
    · rcases List.mem_cons.mp hb with rfl | hbT
      · exact absurd hlt (by
          have := hx a haT
          exact fun hh => absurd (hh.trans this) (lt_irrefl _))
      · exact (ih ht haT hbT).cons x

theorem decimationSort2_pairwise_entryLt {entries : List Entry}
    (hP : entries.Pairwise slotLt) : (decimationSort2 entries).Pairwise entryLt := by
  have hsorted := sorted_decimationSort2 entries
  have hndE : entries.Nodup :=
    hP.imp fun {a b} h => by
      intro he
      rw [he] at h
      exact absurd h (lt_irrefl _)
  have hperm := perm_decimationSort2 entries
  have hnd2 : (decimationSort2 entries).Nodup := hperm.nodup_iff.mpr hndE
  rw [List.pairwise_iff_forall_sublist]
  intro a b hab
  have haM : a ∈ entries := hperm.subset (hab.subset (by simp))
  have hbM : b ∈ entries := hperm.subset (hab.subset (by simp))
  have hne : a ≠ b := by
    rintro rfl
    have := hab.nodup hnd2
    simp at this
  have hle : coarseAgeLe a b := List.pairwise_iff_forall_sublist.mp hsorted hab
  rcases hle with hlt | ⟨hceq, hage⟩
  · exact Or.inl hlt
  rcases Nat.lt_or_ge a.2.2 b.2.2 with haged | hage2
  · exact Or.inr ⟨hceq, Or.inl haged⟩
  have hageq : a.2.2 = b.2.2 := Nat.le_antisymm hage hage2
  refine Or.inr ⟨hceq, Or.inr ⟨hageq, ?_⟩⟩
  by_contra hnl
  have hslots : a.1 ≠ b.1 := by
    intro heq1
    rcases mem_mem_ne_sublist entries a b haM hbM hne with h | h
    · have h2 : a.1 < b.1 := List.pairwise_iff_forall_sublist.mp hP h
      rw [heq1] at h2
      exact absurd h2 (lt_irrefl _)
    · have h2 : b.1 < a.1 := List.pairwise_iff_forall_sublist.mp hP h
      rw [heq1] at h2
      exact absurd h2 (lt_irrefl _)
  have hba : b.1 < a.1 := by
    rcases Nat.lt_or_ge a.1 b.1 with h | h
    · exact absurd h hnl
    · exact lt_of_le_of_ne h (Ne.symm hslots)
  have hsubE : ([b, a]).Sublist entries := pair_sublist_of_pairwise_slotLt hP hbM haM hba
  have hsub1 : ([b, a]).Sublist (decimationSort1 entries) :=
    List.pair_sublist_insertionSort (by exact Nat.le_of_eq hceq.symm) hsubE
  have hsub2 : ([b, a]).Sublist (decimationSort2 entries) :=
    List.pair_sublist_insertionSort
      (Or.inr ⟨hceq.symm, Nat.le_of_eq hageq.symm⟩) hsub1
  exact hne (sublist_pair_antisymm _ hnd2 a b hab hsub2)

/-- Faithfulness of `keepLastOfRuns` to the source's positional group-end
selection: the lexsort leaves the coarse-index sequence of the argsorted
entries pointwise unchanged, so group boundaries computed on either sequence
coincide. -/
theorem map_coarse_sort2_eq_sort1 (entries : List Entry) :
    (decimationSort2 entries).map (fun e => e.2.1) =
      (decimationSort1 entries).map fun e => e.2.1 := by
  refine List.eq_of_perm_of_sorted (r := (· ≤ · : ℕ → ℕ → Prop)) ?_ ?_ ?_
  · exact (List.perm_insertionSort coarseAgeLe (decimationSort1 entries)).map _
  · refine List.Pairwise.map _ ?_ (sorted_decimationSort2 entries)
    intro a b h
    rcases h with h | ⟨h, _⟩
    · exact Nat.le_of_lt h
    · exact Nat.le_of_eq h
  · refine List.Pairwise.map _ ?_ (List.sorted_insertionSort coarseLe entries)
    intro a b h
    exact h

/-! ### set_bad_balls lemmas -/

theorem mem_offEdgeSurvivors {p : Params} {pos : List Pos3} {i : ℕ} :
    i ∈ offEdgeSurvivors p pos ↔
      i < pos.length ∧ offEdgeO p (pos.getD i sentinel) = false := by
  simp [offEdgeSurvivors, List.mem_filter, List.mem_range]

theorem polaritySurvivors_sublist (p : Params) (image : ℤ → ℤ → ℚ) (pos : List Pos3)
    (cp : Bool) : (polaritySurvivors p image pos cp).Sublist (offEdgeSurvivors p pos) := by
  unfold polaritySurvivors
  split
  · exact List.filter_sublist _
  · exact List.Sublist.refl _

theorem noiseSurvivors_sublist (p : Params) (image : ℤ → ℤ → ℚ) (pos : List Pos3)
    (cp cn : Bool) :
    (noiseSurvivors p image pos cp cn).Sublist (polaritySurvivors p image pos cp) := by
  unfold noiseSurvivors
  split
  · exact List.filter_sublist _
  · exact List.Sublist.refl _

theorem sinkSurvivors_sublist (p : Params) (image surface : ℤ → ℤ → ℚ) (pos : List Pos3)
    (cp cn cs : Bool) :
    (sinkSurvivors p image surface pos cp cn cs).Sublist (noiseSurvivors p image pos cp cn) := by
  unfold sinkSurvivors
  split
  · exact List.filter_sublist _
  · exact List.Sublist.refl _

theorem sinkSurvivors_sublist_offEdge (p : Params) (image surface : ℤ → ℤ → ℚ)
    (pos : List Pos3) (cp cn cs : Bool) :
    (sinkSurvivors p image surface pos cp cn cs).Sublist (offEdgeSurvivors p pos) :=
  ((sinkSurvivors_sublist p image surface pos cp cn cs).trans
    (noiseSurvivors_sublist p image pos cp cn)).trans
    (polaritySurvivors_sublist p image pos cp)

theorem sinkSurvivors_pairwise (p : Params) (image surface : ℤ → ℤ → ℚ)
    (pos : List Pos3) (cp cn cs : Bool) :
    (sinkSurvivors p image surface pos cp cn cs).Pairwise (· < ·) :=
  List.Pairwise.sublist
    ((sinkSurvivors_sublist_offEdge p image surface pos cp cn cs).trans
      (List.filter_sublist _)) (List.pairwise_lt_range _)

theorem checkedEntries_pairwise_slotLt (p : Params) (image surface : ℤ → ℤ → ℚ)
    (pos : List Pos3) (ages : List ℕ) (cp cn cs : Bool) :
    (checkedEntries p image surface pos ages cp cn cs).Pairwise slotLt := by
  unfold checkedEntries
  exact List.Pairwise.map _ (fun a b h => h)
    (sinkSurvivors_pairwise p image surface pos cp cn cs)

theorem mem_checkedEntries {p : Params} {image surface : ℤ → ℤ → ℚ} {pos : List Pos3}
    {ages : List ℕ} {cp cn cs : Bool} {e : Entry} :
    e ∈ checkedEntries p image surface pos ages cp cn cs ↔
      e.1 ∈ sinkSurvivors p image surface pos cp cn cs ∧
      e = (e.1, coarseOfPos3 p (pos.getD e.1 sentinel), ages.getD e.1 0) := by
  unfold checkedEntries
  rw [List.mem_map]
  constructor
  · rintro ⟨i, hi, rfl⟩
    exact ⟨hi, rfl⟩
  · rintro ⟨hi, he⟩
    exact ⟨e.1, hi, he.symm⟩

theorem mem_decimationKeep {entries : List Entry} {i : ℕ} :
    i ∈ decimationKeep entries ↔
      ∃ e ∈ keepLastOfRuns (decimationSort2 entries), e.1 = i := by
  unfold decimationKeep
  exact List.mem_map

theorem keepLastOfRuns_mem_entries {entries : List Entry} {e : Entry}
    (he : e ∈ keepLastOfRuns (decimationSort2 entries)) : e ∈ entries :=
  (perm_decimationSort2 entries).subset
    ((keepLastOfRuns_sublist (decimationSort2 entries)).subset he)

/-- Two balls kept by the decimation and sitting in the same coarse-grid cell
are the same entry. -/
theorem keepLastOfRuns_coarse_inj {entries : List Entry} {e f : Entry}
    (he : e ∈ keepLastOfRuns (decimationSort2 entries))
    (hf : f ∈ keepLastOfRuns (decimationSort2 entries))
    (hc : e.2.1 = f.2.1) : e = f := by
  by_contra hne
  have hpw : (keepLastOfRuns (decimationSort2 entries)).Pairwise
      fun a b => a.2.1 < b.2.1 :=
    keepLastOfRuns_pairwise_lt _ ((sorted_decimationSort2 entries).imp (by
      intro a b h
      rcases h with h | ⟨h, _⟩
      · exact Nat.le_of_lt h
      · exact Nat.le_of_eq h))
  rcases mem_mem_ne_sublist _ e f he hf hne with h | h
  · exact absurd hc (Nat.ne_of_lt (List.pairwise_iff_forall_sublist.mp hpw h))
  · exact absurd hc (Nat.ne_of_gt (List.pairwise_iff_forall_sublist.mp hpw h))

theorem set_bad_balls_ok {p : Params} {image surface : ℤ → ℤ → ℚ} {pos : List Pos3}
    {ages : List ℕ} {cp cn cs : Bool} {r : SBBResult}
    (h : set_bad_balls p image surface pos ages cp cn cs = .ok r) :
    r = sbbOkResult p image surface pos ages cp cn cs := by
  unfold set_bad_balls at h
  split at h
  · exact absurd h (by simp)
  · split at h
    · exact absurd h (by simp)
    · split at h
      · exact absurd h (by simp)
      · exact (Except.ok.injEq _ _ ▸ h).symm

theorem decimationKeep_slot_mem {entries : List Entry} {i : ℕ}
    (h : i ∈ decimationKeep entries) : ∃ e ∈ entries, e.1 = i := by
  obtain ⟨e, he, rfl⟩ := mem_decimationKeep.mp h
  exact ⟨e, keepLastOfRuns_mem_entries he, rfl⟩

theorem sbb_valid_iff {p : Params} {image surface : ℤ → ℤ → ℚ} {pos : List Pos3}
    {ages : List ℕ} {cp cn cs : Bool} {r : SBBResult}
    (h : set_bad_balls p image surface pos ages cp cn cs = .ok r) (i : ℕ) :
    r.new_valid_balls_mask.getD i false = true ↔
      i ∈ decimationKeep (checkedEntries p image surface pos ages cp cn cs) := by
  rw [set_bad_balls_ok h]
  unfold sbbOkResult
  rw [List.map_map]
  show (((List.range pos.length).map _).getD i false) = true ↔ _
  rw [getD_map_range]
  by_cases hlen : i < pos.length
  · simp only [hlen, if_true, Function.comp]
    rw [Bool.not_not]
    exact decide_eq_true_iff
  · simp only [hlen, if_false]
    constructor
    · intro hf
      exact absurd hf (by simp)
    · intro hk
      obtain ⟨e, he, rfl⟩ := decimationKeep_slot_mem hk
      have : e.1 ∈ sinkSurvivors p image surface pos cp cn cs :=
        (mem_checkedEntries.mp he).1
      have : e.1 ∈ offEdgeSurvivors p pos :=
        (sinkSurvivors_sublist_offEdge p image surface pos cp cn cs).subset this
      exact absurd (mem_offEdgeSurvivors.mp this).1 hlen

theorem sbb_mask_lengths {p : Params} {image surface : ℤ → ℤ → ℚ} {pos : List Pos3}
    {ages : List ℕ} {cp cn cs : Bool} {r : SBBResult}
    (h : set_bad_balls p image surface pos ages cp cn cs = .ok r) :
    r.bad_balls_mask.length = pos.length ∧
      r.new_valid_balls_mask.length = pos.length := by
  rw [set_bad_balls_ok h]
  unfold sbbOkResult
  constructor <;> simp

theorem sbb_new_valid_not_bad {p : Params} {image surface : ℤ → ℤ → ℚ} {pos : List Pos3}
    {ages : List ℕ} {cp cn cs : Bool} {r : SBBResult}
    (h : set_bad_balls p image surface pos ages cp cn cs = .ok r) :
    r.new_valid_balls_mask = r.bad_balls_mask.map (!·) := by
  rw [set_bad_balls_ok h]
  rfl

/-- A slot valid after `set_bad_balls` passed every check: it is one of the
fully checked survivors. -/
theorem sbb_valid_imp_checked {p : Params} {image surface : ℤ → ℤ → ℚ} {pos : List Pos3}
    {ages : List ℕ} {cp cn cs : Bool} {r : SBBResult}
    (h : set_bad_balls p image surface pos ages cp cn cs = .ok r) {i : ℕ}
    (hv : r.new_valid_balls_mask.getD i false = true) :
    i ∈ sinkSurvivors p image surface pos cp cn cs := by
  obtain ⟨e, he, rfl⟩ := decimationKeep_slot_mem ((sbb_valid_iff h i).mp hv)
  exact (mem_checkedEntries.mp he).1

/-- Two distinct slots both valid after `set_bad_balls` lie in different
coarse-grid cells. -/
theorem sbb_valid_coarse_ne {p : Params} {image surface : ℤ → ℤ → ℚ} {pos : List Pos3}
    {ages : List ℕ} {cp cn cs : Bool} {r : SBBResult}
    (h : set_bad_balls p image surface pos ages cp cn cs = .ok r) {i j : ℕ}
    (hi : r.new_valid_balls_mask.getD i false = true)
    (hj : r.new_valid_balls_mask.getD j false = true) (hij : i ≠ j) :
    coarseOfPos3 p (pos.getD i sentinel) ≠ coarseOfPos3 p (pos.getD j sentinel) := by
  obtain ⟨ei, hei, hei1⟩ := mem_decimationKeep.mp ((sbb_valid_iff h i).mp hi)
  obtain ⟨ej, hej, hej1⟩ := mem_decimationKeep.mp ((sbb_valid_iff h j).mp hj)
  have hshapei := (mem_checkedEntries.mp (keepLastOfRuns_mem_entries hei)).2
  have hshapej := (mem_checkedEntries.mp (keepLastOfRuns_mem_entries hej)).2
  intro hc
  have : ei = ej := by
    refine keepLastOfRuns_coarse_inj hei hej ?_
    rw [hshapei, hshapej]
    simpa [hei1, hej1] using hc
  exact hij (by rw [← hei1, ← hej1, this])

/-- Among the fully checked survivors of one coarse-grid cell (nonempty,
witnessed by `g`), exactly one slot stays valid; it maximizes age, with
age ties resolved toward the larger slot index (the stable sorts keep
equal-key entries in ascending slot order and the last one of the cell's run
is selected). -/
theorem sbb_decimation_oldest {p : Params} {image surface : ℤ → ℤ → ℚ}
    {pos : List Pos3} {ages : List ℕ} {cp cn cs : Bool} {r : SBBResult}
    (h : set_bad_balls p image surface pos ages cp cn cs = .ok r) {c g : ℕ}
    (hg : g ∈ (sinkSurvivors p image surface pos cp cn cs).filter
      fun i => decide (coarseOfPos3 p (pos.getD i sentinel) = c)) :
    ∃ i ∈ (sinkSurvivors p image surface pos cp cn cs).filter
        fun i => decide (coarseOfPos3 p (pos.getD i sentinel) = c),
      r.new_valid_balls_mask.getD i false = true ∧
      ∀ j ∈ (sinkSurvivors p image surface pos cp cn cs).filter
          fun i => decide (coarseOfPos3 p (pos.getD i sentinel) = c),
        j ≠ i →
          r.new_valid_balls_mask.getD j false = false ∧
          (ages.getD j 0 < ages.getD i 0 ∨
            (ages.getD j 0 = ages.getD i 0 ∧ j < i)) := by
  obtain ⟨hgs, hgc⟩ := List.mem_filter.mp hg
  have hgc : coarseOfPos3 p (pos.getD g sentinel) = c := by simpa using hgc
  have hegE : (g, coarseOfPos3 p (pos.getD g sentinel), ages.getD g 0) ∈
      checkedEntries p image surface pos ages cp cn cs :=
    mem_checkedEntries.mpr ⟨hgs, rfl⟩
  have hegS : (g, coarseOfPos3 p (pos.getD g sentinel), ages.getD g 0) ∈
      decimationSort2 (checkedEntries p image surface pos ages cp cn cs) :=
    (perm_decimationSort2 _).symm.subset hegE
  obtain ⟨e, heK, hec⟩ := keepLastOfRuns_exists_coarse _ _ hegS
  have heE := keepLastOfRuns_mem_entries heK
  obtain ⟨heS, heShape⟩ := mem_checkedEntries.mp heE
  have hec2 : e.2.1 = c := by
    rw [hec]
    exact hgc
  simp only [Prod.ext_iff, true_and] at heShape
  have hecoarse : coarseOfPos3 p (pos.getD e.1 sentinel) = c := by
    rw [← heShape.1]
    exact hec2
  have heage : e.2.2 = ages.getD e.1 0 := heShape.2
  have hvalid : r.new_valid_balls_mask.getD e.1 false = true :=
    (sbb_valid_iff h e.1).mpr (mem_decimationKeep.mpr ⟨e, heK, rfl⟩)
  refine ⟨e.1, List.mem_filter.mpr ⟨heS, by simpa using hecoarse⟩, hvalid, ?_⟩
  intro j hj hji
  obtain ⟨hjs, hjc⟩ := List.mem_filter.mp hj
  have hjc : coarseOfPos3 p (pos.getD j sentinel) = c := by simpa using hjc
  have hejE : (j, coarseOfPos3 p (pos.getD j sentinel), ages.getD j 0) ∈
      checkedEntries p image surface pos ages cp cn cs :=
    mem_checkedEntries.mpr ⟨hjs, rfl⟩
  have hejS : (j, coarseOfPos3 p (pos.getD j sentinel), ages.getD j 0) ∈
      decimationSort2 (checkedEntries p image surface pos ages cp cn cs) :=
    (perm_decimationSort2 _).symm.subset hejE
  have hP2 : (decimationSort2 (checkedEntries p image surface pos ages cp cn cs)).Pairwise
      entryLt :=
    decimationSort2_pairwise_entryLt (checkedEntries_pairwise_slotLt _ _ _ _ _ _ _ _)
  have hne : (j, coarseOfPos3 p (pos.getD j sentinel), ages.getD j 0) ≠ e := by
    intro heq
    exact hji (by simpa using congrArg (fun t : Entry => t.1) heq)
  have hcc : (j, coarseOfPos3 p (pos.getD j sentinel), ages.getD j 0).2.1 = e.2.1 := by
    show coarseOfPos3 p (pos.getD j sentinel) = e.2.1
    rw [hjc, hec2]
  have hmax := keepLastOfRuns_max _ hP2 e heK _ hejS hcc hne
  constructor
  · by_contra hvj
    have hvj : r.new_valid_balls_mask.getD j false = true := by
      revert hvj
      cases hb : r.new_valid_balls_mask.getD j false <;> simp [hb]
    obtain ⟨f, hfK, hf1⟩ := mem_decimationKeep.mp ((sbb_valid_iff h j).mp hvj)
    obtain ⟨hfS, hfShape⟩ := mem_checkedEntries.mp (keepLastOfRuns_mem_entries hfK)
    simp only [Prod.ext_iff, true_and] at hfShape
    have hfc : f.2.1 = c := by
      rw [hfShape.1, hf1, hjc]
    have : f = e := keepLastOfRuns_coarse_inj hfK heK (by rw [hfc, hec2])
    exact hji (by rw [← hf1, this])
  · rw [heage] at hmax
    simpa using hmax

theorem mem_polaritySurvivors_true {p : Params} {image : ℤ → ℤ → ℚ}
    {pos : List Pos3} {i : ℕ} :
    i ∈ polaritySurvivors p image pos true ↔
      i ∈ offEdgeSurvivors p pos ∧
        0 ≤ qsign (image (txOf pos i) (tyOf pos i)) * p.polarity := by
  unfold polaritySurvivors
  simp [List.mem_filter]

/-- If every ball passing the off-edge check sits on a pixel of the wrong
sign, the polarity stage finds no survivor and `set_bad_balls` aborts. -/
theorem sbb_polarity_abort {p : Params} {image surface : ℤ → ℤ → ℚ}
    {pos : List Pos3} {ages : List ℕ} {cn cs : Bool}
    (hall : ∀ i ∈ offEdgeSurvivors p pos,
      qsign (image (txOf pos i) (tyOf pos i)) * p.polarity < 0) :
    set_bad_balls p image surface pos ages true cn cs = .error .polarityAbort := by
  have hempty : polaritySurvivors p image pos true = [] := by
    rw [List.eq_nil_iff_forall_not_mem]
    intro i hi
    obtain ⟨hio, hsign⟩ := mem_polaritySurvivors_true.mp hi
    exact absurd hsign (not_le.mpr (hall i hio))
  unfold set_bad_balls
  rw [hempty]
  simp

/-- A ball that passed the off-edge check but sits on a pixel of sign
opposite to the tracked polarity is never among the valid balls that
`set_bad_balls` reports. -/
theorem sbb_polarity_flags_invalid {p : Params} {image surface : ℤ → ℤ → ℚ}
    {pos : List Pos3} {ages : List ℕ} {cn cs : Bool} {r : SBBResult}
    (h : set_bad_balls p image surface pos ages true cn cs = .ok r) {i : ℕ}
    (hbad : qsign (image (txOf pos i) (tyOf pos i)) * p.polarity < 0) :
    r.new_valid_balls_mask.getD i false = false := by
  cases hb : r.new_valid_balls_mask.getD i false
  · rfl
  · have hchk := sbb_valid_imp_checked h hb
    have hpol : i ∈ polaritySurvivors p image pos true :=
      ((sinkSurvivors_sublist p image surface pos true cn cs).trans
        (noiseSurvivors_sublist p image pos true cn)).subset hchk
    exact absurd (mem_polaritySurvivors_true.mp hpol).2 (not_le.mpr hbad)

/-- If some ball survives the polarity stage but every one of them sits on a
pixel at or below the noise level, the noise stage aborts. -/
theorem sbb_noise_abort {p : Params} {image surface : ℤ → ℤ → ℚ}
    {pos : List Pos3} {ages : List ℕ} {cp : Bool} {cs : Bool}
    (hne : ¬ (cp && (polaritySurvivors p image pos cp).isEmpty) = true)
    (hall : ∀ i ∈ polaritySurvivors p image pos cp,
      |image (txOf pos i) (tyOf pos i)| ≤ p.noise_level) :
    set_bad_balls p image surface pos ages cp true cs = .error .noiseAbort := by
  have hempty : noiseSurvivors p image pos cp true = [] := by
    rw [List.eq_nil_iff_forall_not_mem]
    intro i hi
    unfold noiseSurvivors at hi
    simp only [if_true] at hi
    obtain ⟨him, hcond⟩ := List.mem_filter.mp hi
    exact absurd (of_decide_eq_true hcond) (not_lt.mpr (hall i him))
  unfold set_bad_balls
  rw [hempty]
  split
  next hc => exact absurd hc hne
  next => simp

/-- If some ball survives the noise stage but every one of them has sunk
below the maximum allowed depth, the sinking stage aborts. -/
theorem sbb_sinking_abort {p : Params} {image surface : ℤ → ℤ → ℚ}
    {pos : List Pos3} {ages : List ℕ} {cp cn : Bool}
    (hne1 : ¬ (cp && (polaritySurvivors p image pos cp).isEmpty) = true)
    (hne2 : ¬ (cn && (noiseSurvivors p image pos cp cn).isEmpty) = true)
    (hall : ∀ i ∈ noiseSurvivors p image pos cp cn,
      (tzOf pos i : ℚ) ≤ surface (txOf pos i) (tyOf pos i) - min_ds_ p) :
    set_bad_balls p image surface pos ages cp cn true = .error .sinkingAbort := by
  have hempty : sinkSurvivors p image surface pos cp cn true = [] := by
    rw [List.eq_nil_iff_forall_not_mem]
    intro i hi
    unfold sinkSurvivors at hi
    simp only [if_true] at hi
    obtain ⟨him, hcond⟩ := List.mem_filter.mp hi
    exact absurd (of_decide_eq_true hcond) (not_lt.mpr (hall i him))
  unfold set_bad_balls
  rw [if_neg hne1, if_neg hne2, hempty]
  simp

/-! ### Run-level lemmas -/

theorem getD_map {α β : Type} (f : α → β) :
    ∀ (l : List α) (i : ℕ) (d1 : α) (d : β), i < l.length →
      (l.map f).getD i d = f (l.getD i d1)
  | [], i, _, _, h => absurd h (by simp)
  | a :: l, 0, _, _, _ => rfl
  | a :: l, i + 1, d1, d, h => getD_map f l i d1 d (by simpa using h)

theorem getD_append_lt {α : Type} :
    ∀ (l l2 : List α) (i : ℕ) (d : α), i < l.length → (l ++ l2).getD i d = l.getD i d
  | [], _, i, _, h => absurd h (by simp)
  | a :: l, l2, 0, d, _ => rfl
  | a :: l, l2, i + 1, d, h => getD_append_lt l l2 i d (by simpa using h)

theorem getD_append_length {α : Type} :
    ∀ (l : List α) (x d : α), (l ++ [x]).getD l.length d = x
  | [], x, d => rfl
  | a :: l, x, d => getD_append_length l x d

theorem foldl_preserve {σ α : Type} {P : σ → Prop} {f : σ → α → σ} :
    ∀ (l : List α) (s : σ), (∀ t x, P t → P (f t x)) → P s → P (l.foldl f s)
  | [], _, _, h => h
  | x :: l, s, hf, h => foldl_preserve l (f s x) hf (hf s x h)

theorem trackStep_ok {A : RunArgs} {n : ℕ} {st s : RunState} :
    trackStep A n st = .ok s ↔
      ∃ r, set_bad_balls A.p (A.frames n) (surfaceAt A n) (preStep A n st).pos
          (preStep A n st).balls_age true true true = .ok r ∧
        s = finalizeFrame (preStep A n st) r := by
  unfold trackStep
  cases h : set_bad_balls A.p (A.frames n) (surfaceAt A n) (preStep A n st).pos
      (preStep A n st).balls_age true true true with
  | error e => simp
  | ok r => simp [eq_comm]

theorem runUpTo_succ {A : RunArgs} {n : ℕ} {s : RunState} :
    runUpTo A (n + 1) = .ok s ↔
      ∃ s0, runUpTo A n = .ok s0 ∧ trackStep A n s0 = .ok s := by
  show (runUpTo A n).bind (trackStep A n) = .ok s ↔ _
  cases h : runUpTo A n with
  | error e => simp [Except.bind]
  | ok s0 => simp [Except.bind]

theorem populate_keeps (p : Params) (extr : List (ℕ × ℕ)) (surface : ℤ → ℤ → ℚ)
    (st : RunState) :
    (populate_emergence p extr surface st).balls_age = st.balls_age ∧
    (populate_emergence p extr surface st).pos_t = st.pos_t ∧
    (populate_emergence p extr surface st).age_t = st.age_t ∧
    (populate_emergence p extr surface st).valid_t = st.valid_t := by
  unfold populate_emergence
  split
  · exact ⟨rfl, rfl, rfl, rfl⟩
  · exact ⟨rfl, rfl, rfl, rfl⟩

theorem integrate_keeps (forceLaw : (ℤ → ℤ → ℚ) → Pos3 → ℚ × ℚ × ℚ) (p : Params)
    (surface : ℤ → ℤ → ℚ) (st : RunState) :
    (integrate_motion forceLaw p surface st).balls_age = st.balls_age ∧
    (integrate_motion forceLaw p surface st).pos_t = st.pos_t ∧
    (integrate_motion forceLaw p surface st).age_t = st.age_t ∧
    (integrate_motion forceLaw p surface st).valid_t = st.valid_t ∧
    (integrate_motion forceLaw p surface st).bad_balls_mask = st.bad_balls_mask ∧
    (integrate_motion forceLaw p surface st).new_valid_balls_mask = st.new_valid_balls_mask ∧
    (integrate_motion forceLaw p surface st).nballs = st.nballs :=
  ⟨rfl, rfl, rfl, rfl, rfl, rfl, rfl⟩

theorem preStep_keeps (A : RunArgs) (n : ℕ) (st : RunState) :
    (preStep A n st).balls_age = st.balls_age ∧
    (preStep A n st).pos_t = st.pos_t ∧
    (preStep A n st).age_t = st.age_t ∧
    (preStep A n st).valid_t = st.valid_t := by
  unfold preStep
  refine foldl_preserve
    (P := fun t : RunState => t.balls_age = st.balls_age ∧ t.pos_t = st.pos_t ∧
      t.age_t = st.age_t ∧ t.valid_t = st.valid_t) _ _ ?_ ?_
  · intro t x ht
    obtain ⟨i1, i2, i3, i4, _, _, _⟩ := integrate_keeps A.forceLaw A.p
      (interpSurface (surfaceAt A n) (nextSurfaceAt A n) A.p.intsteps x) t
    exact ⟨i1.trans ht.1, i2.trans ht.2.1, i3.trans ht.2.2.1, i4.trans ht.2.2.2⟩
  · split
    · obtain ⟨p1, p2, p3, p4⟩ := populate_keeps A.p (A.extrema (A.frames n)) (surfaceAt A n) st
      exact ⟨p1, p2, p3, p4⟩
    · exact ⟨rfl, rfl, rfl, rfl⟩

theorem stateLens_initMBT (A : RunArgs) : stateLens A.p (initMBT A) := by
  unfold stateLens initMBT
  refine ⟨?_, ?_, ?_, ?_, ?_⟩ <;> simp [length_writeFrom]

theorem stateLens_populate {p : Params} {st : RunState} (h : stateLens p st)
    (extr : List (ℕ × ℕ)) (surface : ℤ → ℤ → ℚ) :
    stateLens p (populate_emergence p extr surface st) := by
  obtain ⟨h1, h2, h3, h4, h5⟩ := h
  unfold populate_emergence
  split
  · exact ⟨h1, h2, h3, h4, h5⟩
  · exact ⟨by simpa [length_writeFrom] using h1, by simpa [length_writeFrom] using h2, h3,
      by simpa [length_writeFrom] using h4, by simpa [length_writeFrom] using h4⟩

theorem stateLens_integrate {p : Params} {st : RunState} (h : stateLens p st)
    (forceLaw : (ℤ → ℤ → ℚ) → Pos3 → ℚ × ℚ × ℚ) (surface : ℤ → ℤ → ℚ) :
    stateLens p (integrate_motion forceLaw p surface st) := by
  obtain ⟨h1, h2, h3, h4, h5⟩ := h
  exact ⟨by simp [integrate_motion, h1, h2], by simp [integrate_motion, h1, h2],
    h3, h4, h5⟩

theorem stateLens_preStep {A : RunArgs} {n : ℕ} {st : RunState}
    (h : stateLens A.p st) : stateLens A.p (preStep A n st) := by
  unfold preStep
  refine foldl_preserve _ _ (fun t x ht => stateLens_integrate ht _ _) ?_
  split
  · exact stateLens_populate h _ _
  · exact h

theorem stateLens_finalize {p : Params} {st : RunState} {r : SBBResult}
    (hst : stateLens p st)
    (hbad : r.bad_balls_mask.length = st.pos.length)
    (hval : r.new_valid_balls_mask.length = st.pos.length) :
    stateLens p (finalizeFrame st r) := by
  obtain ⟨h1, h2, h3, h4, h5⟩ := hst
  unfold finalizeFrame
  refine ⟨?_, ?_, ?_, ?_, ?_⟩ <;> simp [hbad, hval, h1, h2, h3]

theorem stateLens_trackStep {A : RunArgs} {n : ℕ} {st s : RunState}
    (hst : stateLens A.p st) (h : trackStep A n st = .ok s) : stateLens A.p s := by
  obtain ⟨r, hr, rfl⟩ := trackStep_ok.mp h
  obtain ⟨hb, hv⟩ := sbb_mask_lengths hr
  exact stateLens_finalize (stateLens_preStep hst) hb hv

theorem stateLens_runUpTo {A : RunArgs} :
    ∀ {n : ℕ} {s : RunState}, runUpTo A n = .ok s → stateLens A.p s
  | 0, s, h => by
      obtain rfl : initMBT A = s := by simpa [runUpTo] using h
      exact stateLens_initMBT A
  | n + 1, s, h => by
      obtain ⟨s0, h0, hstep⟩ := runUpTo_succ.mp h
      exact stateLens_trackStep (stateLens_runUpTo h0) hstep

theorem runUpTo_hist {A : RunArgs} :
    ∀ {n : ℕ} {s : RunState}, runUpTo A (n + 1) = .ok s →
      s.pos_t.length = n + 1 ∧ s.age_t.length = n + 1 ∧ s.valid_t.length = n + 1 ∧
      s.pos_t.getD n [] = s.pos ∧ s.age_t.getD n [] = s.balls_age ∧
      s.valid_t.getD n [] = s.new_valid_balls_mask := by
  intro n
  induction n with
  | zero =>
    intro s h
    obtain ⟨s0, h0, hstep⟩ := runUpTo_succ.mp h
    obtain rfl : initMBT A = s0 := by simpa [runUpTo] using h0
    obtain ⟨r, hr, rfl⟩ := trackStep_ok.mp hstep
    obtain ⟨k1, k2, k3, k4⟩ := preStep_keeps A 0 (initMBT A)
    have e2 : (preStep A 0 (initMBT A)).pos_t = [] := by rw [k2]; rfl
    have e3 : (preStep A 0 (initMBT A)).age_t = [] := by rw [k3]; rfl
    have e4 : (preStep A 0 (initMBT A)).valid_t = [] := by rw [k4]; rfl
    unfold finalizeFrame
    rw [e2, e3, e4]
    exact ⟨rfl, rfl, rfl, rfl, rfl, rfl⟩
  | succ n ih =>
    intro s h
    obtain ⟨s0, h0, hstep⟩ := runUpTo_succ.mp h
    obtain ⟨l1, l2, l3, g1, g2, g3⟩ := ih h0
    obtain ⟨r, hr, rfl⟩ := trackStep_ok.mp hstep
    obtain ⟨k1, k2, k3, k4⟩ := preStep_keeps A (n + 1) s0
    unfold finalizeFrame
    rw [k2, k3, k4]
    refine ⟨by simp [l1], by simp [l2], by simp [l3], ?_, ?_, ?_⟩
    · rw [← l1]
      exact getD_append_length _ _ _
    · rw [← l2]
      exact getD_append_length _ _ _
    · rw [← l3]
      exact getD_append_length _ _ _

theorem oAdd_none_right (q : OQ) : oAdd q none = none := by
  cases q <;> rfl

theorem offEdgeO_false {p : Params} {q : Pos3} (h : offEdgeO p q = false) :
    ∃ x y, q.1 = some x ∧ q.2.1 = some y ∧
      (p.rs : ℚ) ≤ x ∧ x ≤ (p.nx : ℚ) - 1 - p.rs ∧
      (p.rs : ℚ) ≤ y ∧ y ≤ (p.ny : ℚ) - 1 - p.rs := by
  obtain ⟨qx, qy, qz⟩ := q
  cases qx with
  | none => exact absurd h (by simp [offEdgeO])
  | some x =>
    cases qy with
    | none => exact absurd h (by simp [offEdgeO])
    | some y =>
      have h2 : offEdgeQ p x y = false := h
      unfold offEdgeQ at h2
      rw [Bool.not_eq_false'] at h2
      obtain ⟨h1, h2, h3, h4⟩ := of_decide_eq_true h2
      exact ⟨x, y, rfl, rfl, h1, h2, h3, h4⟩

theorem offEdgeO_sentinel (p : Params) : offEdgeO p sentinel = true := by
  cases h : offEdgeO p sentinel
  · obtain ⟨x, y, hx, hy, hrx, _, _, _⟩ := offEdgeO_false h
    have hx1 : x = -1 := Option.some_inj.mp hx.symm
    rw [hx1] at hrx
    have : (0 : ℚ) ≤ (p.rs : ℚ) := by positivity
    linarith
  · rfl

theorem offEdgeO_nanTriple (p : Params) : offEdgeO p nanTriple = true := rfl

/-- A slot that is off-edge (in particular a dead slot carrying the sentinel
or NaN position) is never among the valid balls of `set_bad_balls`. -/
theorem sbb_offEdge_invalid {p : Params} {image surface : ℤ → ℤ → ℚ} {pos : List Pos3}
    {ages : List ℕ} {cp cn cs : Bool} {r : SBBResult}
    (h : set_bad_balls p image surface pos ages cp cn cs = .ok r) {slot : ℕ}
    (hoff : offEdgeO p (pos.getD slot sentinel) = true) :
    r.new_valid_balls_mask.getD slot false = false := by
  cases hb : r.new_valid_balls_mask.getD slot false
  · rfl
  · have hchk := sbb_valid_imp_checked h hb
    have hmem := (sinkSurvivors_sublist_offEdge p image surface pos cp cn cs).subset hchk
    rw [(mem_offEdgeSurvivors.mp hmem).2] at hoff
    exact absurd hoff (by simp)

/-- The age bookkeeping of one frame: valid slots gain exactly 1, the rest
keep their age. -/
theorem trackStep_age_update {A : RunArgs} {n : ℕ} {st s : RunState}
    (h : trackStep A n st = .ok s) (slot : ℕ) (hlen : stateLens A.p st) :
    s.balls_age.getD slot 0 = st.balls_age.getD slot 0 +
      (if s.new_valid_balls_mask.getD slot false = true then 1 else 0) := by
  obtain ⟨r, hr, rfl⟩ := trackStep_ok.mp h
  obtain ⟨hp1, hp2, hp3, hp4, hp5⟩ := stateLens_preStep hlen (n := n)
  obtain ⟨hb, hv⟩ := sbb_mask_lengths hr
  have hages : (preStep A n st).balls_age = st.balls_age := (preStep_keeps A n st).1
  show (List.zipWith (fun v a => if v then a + 1 else a) r.new_valid_balls_mask
    (preStep A n st).balls_age).getD slot 0 = _
  by_cases hs : slot < nballs_max A.p
  · rw [getD_zipWith _ _ _ _ false 0 _ (by rw [hv, hp1]; exact hs) (by rw [hp3]; exact hs)]
    show _ = _ + (if r.new_valid_balls_mask.getD slot false = true then 1 else 0)
    rw [hages]
    cases hvb : r.new_valid_balls_mask.getD slot false <;> simp [hvb]
  · have hlzip : (List.zipWith (fun v a => if v then a + 1 else a) r.new_valid_balls_mask
        (preStep A n st).balls_age).length ≤ slot := by
      rw [List.length_zipWith, hv, hp1, hp3]
      omega
    rw [List.getD_eq_default _ _ hlzip,
      List.getD_eq_default _ _ (by rw [hlen.2.2.1]; omega)]
    have hvfalse : r.new_valid_balls_mask.getD slot false = false :=
      List.getD_eq_default _ _ (by rw [hv, hp1]; omega)
    show 0 = 0 + (if r.new_valid_balls_mask.getD slot false = true then 1 else 0)
    rw [hvfalse]
    simp

/-- The sentinel bookkeeping of one frame: a slot is invalid iff its stored
position is the sentinel, and invalid slots get a NaN velocity. -/
theorem trackStep_sentinel {A : RunArgs} {n : ℕ} {st s : RunState}
    (h : trackStep A n st = .ok s) (slot : ℕ) (hlen : stateLens A.p st) :
    (s.new_valid_balls_mask.getD slot false = false ↔
      s.pos.getD slot sentinel = sentinel) ∧
    (s.new_valid_balls_mask.getD slot false = false →
      s.vel.getD slot nanTriple = nanTriple) := by
  obtain ⟨r, hr, rfl⟩ := trackStep_ok.mp h
  obtain ⟨hp1, hp2, hp3, hp4, hp5⟩ := stateLens_preStep hlen (n := n)
  obtain ⟨hb, hv⟩ := sbb_mask_lengths hr
  by_cases hs : slot < nballs_max A.p
  · have hbad : (finalizeFrame (preStep A n st) r).new_valid_balls_mask.getD slot false =
        !(r.bad_balls_mask.getD slot true) := by
      show r.new_valid_balls_mask.getD slot false = _
      rw [sbb_new_valid_not_bad hr]
      exact getD_map _ _ _ true _ (by rw [hb, hp1]; exact hs)
    have hpos : (finalizeFrame (preStep A n st) r).pos.getD slot sentinel =
        (if r.bad_balls_mask.getD slot true then sentinel
          else (preStep A n st).pos.getD slot sentinel) := by
      show (List.zipWith (fun b q => if b then sentinel else q) r.bad_balls_mask
        (preStep A n st).pos).getD slot sentinel = _
      exact getD_zipWith _ _ _ _ true sentinel _ (by rw [hb, hp1]; exact hs)
        (by rw [hp1]; exact hs)
    have hvel : (finalizeFrame (preStep A n st) r).vel.getD slot nanTriple =
        (if r.bad_balls_mask.getD slot true then nanTriple
          else (preStep A n st).vel.getD slot nanTriple) := by
      show (List.zipWith (fun b v => if b then nanTriple else v) r.bad_balls_mask
        (preStep A n st).vel).getD slot nanTriple = _
      exact getD_zipWith _ _ _ _ true nanTriple _ (by rw [hb, hp1]; exact hs)
        (by rw [hp2]; exact hs)
    cases hbb : r.bad_balls_mask.getD slot true
    · simp only [hbb, Bool.false_eq_true, if_false] at hpos hvel
      have hvalid : (finalizeFrame (preStep A n st) r).new_valid_balls_mask.getD slot
          false = true := by rw [hbad, hbb]; rfl
      constructor
      · rw [hvalid, hpos]
        constructor
        · intro hff; exact absurd hff (by simp)
        · intro hsent
          have hvv : r.new_valid_balls_mask.getD slot false = true := hvalid
          have hchk := sbb_valid_imp_checked hr hvv
          have hmem := (sinkSurvivors_sublist_offEdge _ _ _ _ _ _ _).subset hchk
          obtain ⟨hlt2, hoffF⟩ := mem_offEdgeSurvivors.mp hmem
          obtain ⟨x, y, hx, hy, hrx, _, _, _⟩ := offEdgeO_false hoffF
          rw [hsent] at hx
          have hx1 : x = -1 := by simpa [sentinel] using hx.symm
          rw [hx1] at hrx
          have hnn : (0 : ℚ) ≤ (A.p.rs : ℚ) := by positivity
          linarith
      · intro hff
        rw [hvalid] at hff
        exact absurd hff (by simp)
    · simp only [hbb, if_true] at hpos hvel
      have hvalid : (finalizeFrame (preStep A n st) r).new_valid_balls_mask.getD slot
          false = false := by rw [hbad, hbb]; rfl
      exact ⟨by rw [hvalid, hpos]; simp, fun _ => hvel⟩
  · have hvfalse : (finalizeFrame (preStep A n st) r).new_valid_balls_mask.getD slot
        false = false := by
      show r.new_valid_balls_mask.getD slot false = false
      exact List.getD_eq_default _ _ (by rw [hv, hp1]; omega)
    have hposd : (finalizeFrame (preStep A n st) r).pos.getD slot sentinel = sentinel := by
      show (List.zipWith _ r.bad_balls_mask (preStep A n st).pos).getD slot sentinel = _
      exact List.getD_eq_default _ _ (by rw [List.length_zipWith, hb, hp1]; omega)
    have hveld : (finalizeFrame (preStep A n st) r).vel.getD slot nanTriple = nanTriple := by
      show (List.zipWith _ r.bad_balls_mask (preStep A n st).vel).getD slot nanTriple = _
      exact List.getD_eq_default _ _ (by rw [List.length_zipWith, hb, hp1, hp2]; omega)
    exact ⟨by rw [hvfalse, hposd]; simp, fun _ => hveld⟩

theorem getD_replicate {α : Type} :
    ∀ (n : ℕ) (a : α) (i : ℕ) (d : α), i < n → (List.replicate n a).getD i d = a
  | 0, _, i, _, h => absurd h (by omega)
  | n + 1, a, 0, d, _ => rfl
  | n + 1, a, i + 1, d, h => getD_replicate n a i d (by omega)

/-- A dead slot stays dead through one integration sub-step: its NaN velocity
absorbs the damping and its position becomes (or stays) NaN. -/
theorem integrate_dead {forceLaw : (ℤ → ℤ → ℚ) → Pos3 → ℚ × ℚ × ℚ} {p : Params}
    {surface : ℤ → ℤ → ℚ} {st : RunState} {slot : ℕ}
    (hlen : stateLens p st) (hd : deadSlot st slot) :
    deadSlot (integrate_motion forceLaw p surface st) slot := by
  obtain ⟨hn, hv, hb, hp, hvel⟩ := hd
  obtain ⟨l1, l2, l3, l4, l5⟩ := hlen
  refine ⟨hn, hv, hb, ?_, ?_⟩
  · by_cases hs : slot < nballs_max p
    · right
      show (List.zipWith _ st.pos (List.zipWith _ st.pos st.vel)).getD slot sentinel =
        nanTriple
      rw [getD_zipWith _ _ _ _ sentinel nanTriple _ (by omega)
        (by rw [List.length_zipWith]; omega)]
      rw [getD_zipWith _ _ _ _ sentinel nanTriple _ (by omega) (by omega), hvel]
      rcases hp with hp | hp <;>
        simp [hp, oAdd, oMul, nanTriple, sentinel, oAdd_none_right]
    · left
      show (List.zipWith _ st.pos _).getD slot sentinel = sentinel
      exact List.getD_eq_default _ _ (by rw [List.length_zipWith]; omega)
  · by_cases hs : slot < nballs_max p
    · show (List.zipWith _ st.pos st.vel).getD slot nanTriple = nanTriple
      rw [getD_zipWith _ _ _ _ sentinel nanTriple _ (by omega) (by omega), hvel]
      rcases hp with hp | hp <;> simp [hp, oMul, oAdd, nanTriple, sentinel]
    · show (List.zipWith _ st.pos st.vel).getD slot nanTriple = nanTriple
      exact List.getD_eq_default _ _ (by rw [List.length_zipWith]; omega)

/-- A dead slot is untouched by the emergence populator: new balls go only
into slots at or above the active-ball count. -/
theorem populate_dead {p : Params} {extr : List (ℕ × ℕ)} {surface : ℤ → ℤ → ℚ}
    {st : RunState} {slot : ℕ} (hd : deadSlot st slot) :
    deadSlot (populate_emergence p extr surface st) slot := by
  obtain ⟨hn, hv, hb, hp, hvel⟩ := hd
  unfold populate_emergence
  split
  · exact ⟨hn, hv, hb, hp, hvel⟩
  · have hbad : (writeFrom st.bad_balls_mask st.nballs
        (List.replicate (newEmergencePositions p extr st).length false)).getD slot true =
        true := by rw [getD_writeFrom_lt _ _ _ _ _ hn]; exact hb
    refine ⟨?_, ?_, hbad, ?_, ?_⟩
    · show slot < st.nballs + (newEmergencePositions p extr st).length
      omega
    · show ((writeFrom st.bad_balls_mask st.nballs _).map (!·)).getD slot false = false
      by_cases hsl : slot < (writeFrom st.bad_balls_mask st.nballs
          (List.replicate (newEmergencePositions p extr st).length false)).length
      · rw [getD_map _ _ _ true _ hsl, hbad]
        rfl
      · exact List.getD_eq_default _ _ (by simp at hsl ⊢; omega)
    · show (writeFrom st.pos st.nballs _).getD slot sentinel = sentinel ∨
        (writeFrom st.pos st.nballs _).getD slot sentinel = nanTriple
      rw [getD_writeFrom_lt _ _ _ _ _ hn]
      exact hp
    · show (writeFrom st.vel st.nballs _).getD slot nanTriple = nanTriple
      rw [getD_writeFrom_lt _ _ _ _ _ hn]
      exact hvel

/-- A dead slot survives the whole pre-step (emergence plus all integration
sub-steps) of one frame. -/
theorem preStep_dead {A : RunArgs} {n : ℕ} {st : RunState} {slot : ℕ}
    (hlen : stateLens A.p st) (hd : deadSlot st slot) :
    deadSlot (preStep A n st) slot := by
  unfold preStep
  have hstep : ∀ (t : RunState) (x : ℕ),
      (stateLens A.p t ∧ deadSlot t slot) →
      (stateLens A.p (integrate_motion A.forceLaw A.p
          (interpSurface (surfaceAt A n) (nextSurfaceAt A n) A.p.intsteps x) t) ∧
        deadSlot (integrate_motion A.forceLaw A.p
          (interpSurface (surfaceAt A n) (nextSurfaceAt A n) A.p.intsteps x) t) slot) :=
    fun t x ht => ⟨stateLens_integrate ht.1 _ _, integrate_dead ht.1 ht.2⟩
  refine (foldl_preserve
    (P := fun t : RunState => stateLens A.p t ∧ deadSlot t slot) _ _ hstep ?_).2
  split
  · exact ⟨stateLens_populate hlen _ _, populate_dead hd⟩
  · exact ⟨hlen, hd⟩

/-- The validity/flagging stage recreates a dead slot from any invalid,
in-count slot. -/
theorem finalize_dead {A : RunArgs} {n : ℕ} {st : RunState} {r : SBBResult} {slot : ℕ}
    (hp1 : (preStep A n st).pos.length = nballs_max A.p)
    (hp2 : (preStep A n st).vel.length = nballs_max A.p)
    (hr : set_bad_balls A.p (A.frames n) (surfaceAt A n) (preStep A n st).pos
      (preStep A n st).balls_age true true true = .ok r)
    (hval : r.new_valid_balls_mask.getD slot false = false)
    (hn : slot < (preStep A n st).nballs) :
    deadSlot (finalizeFrame (preStep A n st) r) slot := by
  obtain ⟨hb, hv⟩ := sbb_mask_lengths hr
  have hbad : r.bad_balls_mask.getD slot true = true := by
    by_cases hs : slot < nballs_max A.p
    · have := sbb_new_valid_not_bad hr
      rw [this] at hval
      rw [getD_map _ _ _ true _ (by omega)] at hval
      cases hbb : r.bad_balls_mask.getD slot true
      · rw [hbb] at hval
        exact absurd hval (by simp)
      · rfl
    · exact List.getD_eq_default _ _ (by omega)
  refine ⟨hn, hval, hbad, ?_, ?_⟩
  · by_cases hs : slot < nballs_max A.p
    · left
      show (List.zipWith (fun b q => if b then sentinel else q) r.bad_balls_mask
        (preStep A n st).pos).getD slot sentinel = sentinel
      rw [getD_zipWith _ _ _ _ true sentinel _ (by omega) (by omega), hbad]
      rfl
    · left
      show (List.zipWith _ r.bad_balls_mask (preStep A n st).pos).getD slot sentinel =
        sentinel
      exact List.getD_eq_default _ _ (by rw [List.length_zipWith]; omega)
  · by_cases hs : slot < nballs_max A.p
    · show (List.zipWith (fun b v => if b then nanTriple else v) r.bad_balls_mask
        (preStep A n st).vel).getD slot nanTriple = nanTriple
      rw [getD_zipWith _ _ _ _ true nanTriple _ (by omega) (by omega), hbad]
      rfl
    · show (List.zipWith _ r.bad_balls_mask (preStep A n st).vel).getD slot nanTriple =
        nanTriple
      exact List.getD_eq_default _ _ (by rw [List.length_zipWith]; omega)

/-- A dead slot stays dead through a whole frame. -/
theorem trackStep_dead {A : RunArgs} {n : ℕ} {st s : RunState} {slot : ℕ}
    (hlen : stateLens A.p st) (hd : deadSlot st slot)
    (h : trackStep A n st = .ok s) : deadSlot s slot := by
  obtain ⟨r, hr, rfl⟩ := trackStep_ok.mp h
  obtain ⟨hp1, hp2, hp3, hp4, hp5⟩ := stateLens_preStep hlen (n := n)
  have hd1 : deadSlot (preStep A n st) slot := preStep_dead hlen hd
  have hoff : offEdgeO A.p ((preStep A n st).pos.getD slot sentinel) = true := by
    rcases hd1.2.2.2.1 with hp | hp
    · rw [hp]; exact offEdgeO_sentinel A.p
    · rw [hp]; exact offEdgeO_nanTriple A.p
  exact finalize_dead hp1 hp2 hr (sbb_offEdge_invalid hr hoff) hd1.1

/-- A slot invalidated at the end of a frame is dead right after that frame. -/
theorem trackStep_post_dead {A : RunArgs} {n : ℕ} {st s : RunState} {slot : ℕ}
    (hlen : stateLens A.p st) (h : trackStep A n st = .ok s)
    (hval : s.new_valid_balls_mask.getD slot false = false)
    (hn : slot < s.nballs) : deadSlot s slot := by
  obtain ⟨r, hr, rfl⟩ := trackStep_ok.mp h
  obtain ⟨hp1, hp2, hp3, hp4, hp5⟩ := stateLens_preStep hlen (n := n)
  exact finalize_dead hp1 hp2 hr hval hn

/-- Dead slots persist across all later frames of the run. -/
theorem dead_run {A : RunArgs} {slot : ℕ} :
    ∀ (j : ℕ) {k : ℕ} {sk : RunState}, runUpTo A k = .ok sk → deadSlot sk slot →
      ∀ {s : RunState}, runUpTo A (k + j) = .ok s → deadSlot s slot
  | 0, k, sk, hk, hd, s, hs => by
      rw [Nat.add_zero, hk] at hs
      injection hs with hh
      exact hh ▸ hd
  | j + 1, k, sk, hk, hd, s, hs => by
      obtain ⟨s0, h0, hstep⟩ := runUpTo_succ.mp (by rw [Nat.add_succ] at hs; exact hs)
      exact trackStep_dead (stateLens_runUpTo h0) (dead_run j hk hd h0) hstep

/-! ### Emergence populator lemmas -/

theorem toSigned32_small {v : ℕ} (h : v < 2 ^ 31) : toSigned32 v = (v : ℤ) := by
  unfold toSigned32
  rw [if_pos (show v % 2 ^ 32 < 2 ^ 31 by omega)]
  omega

theorem toSigned32_zero : toSigned32 0 = 0 := by
  unfold toSigned32
  norm_num

theorem viewInt32_cons (v : ℕ) (vs : List ℕ) :
    viewInt32 (v :: vs) =
      toSigned32 (v % 2 ^ 64) :: toSigned32 (v % 2 ^ 64 / 2 ^ 32) :: viewInt32 vs := by
  unfold viewInt32
  rw [List.flatMap_cons]
  rfl

/-- For in-range coordinates the int64-to-int32 reinterpretation of the x and
y arrays pairs up as the original coordinate followed by a ghost (0, 0). -/
theorem viewInt32_pairs :
    ∀ l : List (ℕ × ℕ), (∀ c ∈ l, c.1 < 2 ^ 31 ∧ c.2 < 2 ^ 31) →
      (viewInt32 (l.map fun c => c.1)).zip (viewInt32 (l.map fun c => c.2)) =
        l.flatMap fun c => [((c.1 : ℤ), (c.2 : ℤ)), ((0 : ℤ), (0 : ℤ))]
  | [], _ => rfl
  | c :: t, hsmall => by
    obtain ⟨h1, h2⟩ := hsmall c (by simp)
    have hm1 : c.1 % 2 ^ 64 = c.1 := Nat.mod_eq_of_lt (by omega)
    have hm2 : c.2 % 2 ^ 64 = c.2 := Nat.mod_eq_of_lt (by omega)
    have hd1 : c.1 % 2 ^ 64 / 2 ^ 32 = 0 := by
      rw [hm1]
      exact Nat.div_eq_of_lt (by omega)
    have hd2 : c.2 % 2 ^ 64 / 2 ^ 32 = 0 := by
      rw [hm2]
      exact Nat.div_eq_of_lt (by omega)
    rw [List.map_cons, List.map_cons, viewInt32_cons, viewInt32_cons, hd1, hd2, hm1, hm2,
      toSigned32_small h1, toSigned32_small h2, toSigned32_zero,
      List.zip_cons_cons, List.zip_cons_cons,
      viewInt32_pairs t (fun d hd => hsmall d (by simp [hd])), List.flatMap_cons]
    rfl

theorem offEdgeQ_zero {p : Params} (hrs : 1 ≤ p.rs) : offEdgeQ p 0 0 = true := by
  unfold offEdgeQ
  rw [Bool.not_eq_true']
  rw [decide_eq_false_iff_not]
  intro ⟨hc, _⟩
  have : (1 : ℚ) ≤ (p.rs : ℚ) := by exact_mod_cast hrs
  linarith

/-- With a positive ball radius and in-range coordinates the ghost (0, 0)
pairs introduced by the int32 view are discarded by the off-edge filter, so
the appended positions are exactly the candidates that pass the distance
test and the off-edge test. -/
theorem newEmergencePositions_eq {p : Params} {extr : List (ℕ × ℕ)} {st : RunState}
    (hrs : 1 ≤ p.rs) (hsmall : ∀ c ∈ extr, c.1 < 2 ^ 31 ∧ c.2 < 2 ^ 31) :
    newEmergencePositions p extr st =
      ((extr.filter (farFromValidBalls p st)).filter fun c =>
        !offEdgeQ p (c.1 : ℚ) (c.2 : ℚ)).map fun c => ((c.1 : ℤ), (c.2 : ℤ)) := by
  unfold newEmergencePositions
  rw [viewInt32_pairs _ (fun c hc => hsmall c (List.mem_filter.mp hc).1)]
  generalize extr.filter (farFromValidBalls p st) = kept
  induction kept with
  | nil => rfl
  | cons c t ih =>
    rw [List.flatMap_cons, List.filter_append, ih, List.filter_cons, List.filter_cons,
      List.filter_nil, List.filter_cons]
    simp only [Int.cast_natCast, Int.cast_zero, offEdgeQ_zero hrs, Bool.not_true,
      Bool.false_eq_true, if_false]
    split
    · simp
    · simp

/-- What `populate_emergence` does to the state: the active-ball count grows
by the number of appended positions, ages are untouched, and every appended
slot receives the candidate's coordinates with a `put_balls_on_surface`
height, a zero velocity and a valid mark. -/
theorem populate_emergence_facts {p : Params} {extr : List (ℕ × ℕ)}
    {surface : ℤ → ℤ → ℚ} {st : RunState}
    (hvel : st.vel.length = st.pos.length)
    (hbadlen : st.bad_balls_mask.length = st.pos.length)
    (hcap : st.nballs + (newEmergencePositions p extr st).length ≤ st.pos.length) :
    (populate_emergence p extr surface st).nballs =
      st.nballs + (newEmergencePositions p extr st).length ∧
    (populate_emergence p extr surface st).balls_age = st.balls_age ∧
    ∀ k, k < (newEmergencePositions p extr st).length →
      (populate_emergence p extr surface st).pos.getD (st.nballs + k) sentinel =
        (some ((((newEmergencePositions p extr st).getD k (0, 0)).1 : ℚ)),
         some ((((newEmergencePositions p extr st).getD k (0, 0)).2 : ℚ)),
         some (put_balls_on_surface surface
           ((((newEmergencePositions p extr st).getD k (0, 0)).1 : ℚ))
           ((((newEmergencePositions p extr st).getD k (0, 0)).2 : ℚ)) p.rs p.dp)) ∧
      (populate_emergence p extr surface st).vel.getD (st.nballs + k) nanTriple =
        zeroTriple ∧
      (populate_emergence p extr surface st).new_valid_balls_mask.getD
        (st.nballs + k) false = true := by
  unfold populate_emergence
  split
  next hg =>
    have hnil : newEmergencePositions p extr st = [] := by
      unfold newEmergencePositions
      rw [List.isEmpty_iff.mp hg]
      rfl
    rw [hnil]
    exact ⟨by simp, rfl, fun k hk => absurd hk (by simp)⟩
  next hg =>
    refine ⟨rfl, rfl, fun k hk => ⟨?_, ?_, ?_⟩⟩
    · show (writeFrom st.pos st.nballs _).getD (st.nballs + k) sentinel = _
      rw [getD_writeFrom_mid _ _ _ _ _ (by omega) (by simpa using hk) (by omega)]
      rw [Nat.add_sub_cancel_left]
      exact getD_map _ _ _ (0, 0) _ hk
    · show (writeFrom st.vel st.nballs _).getD (st.nballs + k) nanTriple = _
      rw [getD_writeFrom_mid _ _ _ _ _ (by omega) (by simpa using hk) (by omega)]
      rw [Nat.add_sub_cancel_left]
      exact getD_replicate _ _ _ _ hk
    · show ((writeFrom st.bad_balls_mask st.nballs _).map (!·)).getD
        (st.nballs + k) false = true
      have hblen : (writeFrom st.bad_balls_mask st.nballs
          (List.replicate (newEmergencePositions p extr st).length false)).length =
          st.bad_balls_mask.length := length_writeFrom _ _ _
      rw [getD_map _ _ _ true _ (by omega)]
      rw [getD_writeFrom_mid _ _ _ _ _ (by omega) (by simpa using hk) (by omega)]
      rw [Nat.add_sub_cancel_left, getD_replicate _ _ _ _ hk]
      rfl

/-- A slot that was never active before the frame (age still 1) and is valid
at the end of the frame carries age 2 afterwards. -/
theorem trackStep_fresh_age {A : RunArgs} {n : ℕ} {st s : RunState} {slot : ℕ}
    (hlen : stateLens A.p st) (h : trackStep A n st = .ok s)
    (hage1 : st.balls_age.getD slot 0 = 1)
    (hvalid : s.new_valid_balls_mask.getD slot false = true) :
    s.balls_age.getD slot 0 = 2 := by
  have := trackStep_age_update h slot hlen
  rw [hage1, hvalid] at this
  simpa using this

/-! ### Claim theorems -/

theorem finalize_pos_of_valid {st : RunState} {r : SBBResult} {slot : ℕ}
    (hbadlen : r.bad_balls_mask.length = st.pos.length)
    (hvallen : r.new_valid_balls_mask.length = st.pos.length)
    (hnv : r.new_valid_balls_mask = r.bad_balls_mask.map (!·))
    (hv : r.new_valid_balls_mask.getD slot false = true) :
    (finalizeFrame st r).pos.getD slot sentinel = st.pos.getD slot sentinel := by
  have hlt : slot < st.pos.length := by
    by_contra hge
    rw [List.getD_eq_default _ _ (by omega)] at hv
    exact absurd hv (by simp)
  have hbad : r.bad_balls_mask.getD slot true = false := by
    rw [hnv, getD_map _ _ _ true _ (by omega)] at hv
    cases hbb : r.bad_balls_mask.getD slot true
    · rfl
    · rw [hbb] at hv
      exact absurd hv (by simp)
  show (List.zipWith _ r.bad_balls_mask st.pos).getD slot sentinel = _
  rw [getD_zipWith _ _ _ _ true sentinel _ (by omega) hlt, hbad]
  rfl

/-- C8: the coarse grid used by decimation does not partition the whole
frame as the spec describes: the source computes both coarse-grid
dimensions from `nx` (`self.nyc_ = np.ceil(self.nx / self.ballspacing)`,
mballtrack.py line 99), so on a 10x30 frame with ballspacing 10 the row
index of the ball at (5, 25) is clamped to 0 instead of the spec's
floor(25/10) = 2 within ceil(30/10) = 3 rows. -/
theorem C8_coarse_grid_row_bug :
    nyc_ exParams8 = 1 ∧ (coarseDimsSpec exParams8).2 = 3 ∧
    (coarse_grid_pos exParams8 5 25).2.1 = 0 ∧ ycoarseSpec exParams8 25 = 2 ∧
    (coarse_grid_pos exParams8 5 25).2.1 ≠ ycoarseSpec exParams8 25 := by
  with_unfolding_all decide

/-- C9: the surface handed to the integrator at sub-step `i` equals the
linear interpolation ((intsteps − i)·surface_n + i·surface_{n+1})/intsteps,
and on the last frame, where `track_all_frames` sets the next surface to
the current one, every sub-step surface equals the current surface
unchanged. -/
theorem C9_substep_surface_interpolation (s t : ℤ → ℤ → ℚ) (k i : ℕ) (x y : ℤ)
    (A : RunArgs) (n : ℕ) (h : i < k) (hlast : n = A.p.nt - 1) :
    interpSurface s t k i x y = (((k : ℚ) - i) * s x y + (i : ℚ) * t x y) / k ∧
    interpSurface s s k i x y = s x y ∧
    nextSurfaceAt A n = surfaceAt A n := by
  have hk0 : 0 < k := Nat.lt_of_le_of_lt (Nat.zero_le i) h
  have hk : (k : ℚ) ≠ 0 := by
    exact_mod_cast Nat.pos_iff_ne_zero.mp hk0
  refine ⟨by unfold interpSurface; ring, ?_, ?_⟩
  · unfold interpSurface
    field_simp
    ring
  · unfold nextSurfaceAt
    rw [if_neg (by omega)]

/-- C1: after `set_bad_balls` has run for a frame, no coarse-grid cell holds
more than one valid ball: two distinct slots both recorded valid at that
frame have distinct linear coarse-grid indices. -/
theorem C1_decimation_invariant (A : RunArgs) (n i j : ℕ) (hij : i ≠ j)
    (qi qj : Pos3)
    (hvi : validRecordAt A n i = some true) (hvj : validRecordAt A n j = some true)
    (hqi : posRecordAt A n i = some qi) (hqj : posRecordAt A n j = some qj) :
    coarseOfPos3 A.p qi ≠ coarseOfPos3 A.p qj := by
  unfold validRecordAt at hvi hvj
  unfold posRecordAt at hqi hqj
  cases hrun : runUpTo A (n + 1) with
  | error e =>
    rw [hrun] at hvi
    simp [Except.toOption] at hvi
  | ok s =>
    rw [hrun] at hvi hvj hqi hqj
    simp only [Except.toOption, Option.map_some', Option.some.injEq] at hvi hvj hqi hqj
    obtain ⟨hl1, hl2, hl3, hg1, hg2, hg3⟩ := runUpTo_hist hrun
    rw [hg3] at hvi hvj
    rw [hg1] at hqi hqj
    obtain ⟨s0, h0, hstep⟩ := runUpTo_succ.mp hrun
    obtain ⟨r, hr, rfl⟩ := trackStep_ok.mp hstep
    obtain ⟨hp1, hp2, hp3, hp4, hp5⟩ := stateLens_preStep (stateLens_runUpTo h0) (n := n)
    obtain ⟨hbl, hvl⟩ := sbb_mask_lengths hr
    have hvi2 : r.new_valid_balls_mask.getD i false = true := hvi
    have hvj2 : r.new_valid_balls_mask.getD j false = true := hvj
    have hqi2 : qi = (preStep A n s0).pos.getD i sentinel := by
      rw [← hqi]
      exact finalize_pos_of_valid hbl hvl (sbb_new_valid_not_bad hr) hvi2
    have hqj2 : qj = (preStep A n s0).pos.getD j sentinel := by
      rw [← hqj]
      exact finalize_pos_of_valid hbl hvl (sbb_new_valid_not_bad hr) hvj2
    rw [hqi2, hqj2]
    exact sbb_valid_coarse_ne hr hvi2 hvj2 hij

/-- C3: a ball's recorded age grows by exactly 1 over a frame in which the
slot ends up valid and is unchanged over a frame in which it ends up
invalid (at frame 0 the reference value is the initial age 1). -/
theorem C3_age_monotonicity (A : RunArgs) (n slot : ℕ)
    (hslot : slot < nballs_max A.p) (a b : ℕ) (v : Bool)
    (ha : ageRecordAt A n slot = some a) (hv : validRecordAt A n slot = some v)
    (hb : (if n = 0 then some 1 else ageRecordAt A (n - 1) slot) = some b) :
    a = b + (if v = true then 1 else 0) := by
  unfold ageRecordAt at ha
  unfold validRecordAt at hv
  cases hrun : runUpTo A (n + 1) with
  | error e =>
    rw [hrun] at ha
    simp [Except.toOption] at ha
  | ok s =>
    rw [hrun] at ha hv
    simp only [Except.toOption, Option.map_some', Option.some.injEq] at ha hv
    obtain ⟨hl1, hl2, hl3, hg1, hg2, hg3⟩ := runUpTo_hist hrun
    rw [hg2] at ha
    rw [hg3] at hv
    obtain ⟨s0, h0, hstep⟩ := runUpTo_succ.mp hrun
    have hupd := trackStep_age_update hstep slot (stateLens_runUpTo h0)
    rw [ha, hv] at hupd
    cases n with
    | zero =>
      have hb1 : b = 1 := by simpa using hb.symm
      obtain rfl : initMBT A = s0 := by simpa [runUpTo] using h0
      have hinit : (initMBT A).balls_age.getD slot 0 = 1 := by
        show (List.replicate (nballs_max A.p) 1).getD slot 0 = 1
        exact getD_replicate _ _ _ _ hslot
      rw [hinit] at hupd
      rw [hb1]
      exact hupd
    | succ m =>
      have hb2 : ageRecordAt A m slot = some b := by simpa using hb
      unfold ageRecordAt at hb2
      rw [h0] at hb2
      simp only [Except.toOption, Option.map_some', Option.some.injEq] at hb2
      obtain ⟨_, _, _, _, hg2p, _⟩ := runUpTo_hist h0
      rw [hg2p] at hb2
      rw [hb2] at hupd
      exact hupd

/-- C4: for every processed frame, a slot's recorded position is the
sentinel (-1, -1, -1) exactly when its recorded validity is false, and
every slot invalid at that frame has its velocity set to NaN. -/
theorem C4_sentinel_consistency (A : RunArgs) (n slot : ℕ) (q w : Pos3) (v : Bool)
    (hq : posRecordAt A n slot = some q) (hv : validRecordAt A n slot = some v)
    (hw : velNowAt A n slot = some w) :
    (v = false ↔ q = sentinel) ∧ (v = false → w = nanTriple) := by
  unfold posRecordAt at hq
  unfold validRecordAt at hv
  unfold velNowAt at hw
  cases hrun : runUpTo A (n + 1) with
  | error e =>
    rw [hrun] at hq
    simp [Except.toOption] at hq
  | ok s =>
    rw [hrun] at hq hv hw
    simp only [Except.toOption, Option.map_some', Option.some.injEq] at hq hv hw
    obtain ⟨hl1, hl2, hl3, hg1, hg2, hg3⟩ := runUpTo_hist hrun
    rw [hg1] at hq
    rw [hg3] at hv
    obtain ⟨s0, h0, hstep⟩ := runUpTo_succ.mp hrun
    obtain ⟨hiff, himp⟩ := trackStep_sentinel hstep slot (stateLens_runUpTo h0)
    rw [hv] at hiff himp
    rw [hq] at hiff
    rw [hw] at himp
    exact ⟨hiff, himp⟩

/-- C2 (amended): in every coarse-grid cell holding more than one fully
checked ball, the decimation keeps exactly one slot valid and it has
maximal age in the cell.  Only these tie-order-invariant facts are
asserted: the survivor among equal-age balls is the last equal-key entry
of np.argsort's output, an order numpy's unstable default quicksort leaves
unspecified for large arrays, so no universal tie-break rule holds — in
particular not the spec's ascending-slot rule, which the two-ball
counterexample (below numpy's insertion-sort threshold, where the order is
known) refutes. -/
theorem C2_decimation_keeps_oldest (p : Params) (image surface : ℤ → ℤ → ℚ)
    (pos : List Pos3) (ages : List ℕ) (cp cn cs : Bool) (r : SBBResult) (c : ℕ)
    (h : set_bad_balls p image surface pos ages cp cn cs = .ok r)
    (hmulti : 2 ≤ ((sinkSurvivors p image surface pos cp cn cs).filter
      fun i => decide (coarseOfPos3 p (pos.getD i sentinel) = c)).length) :
    ∃ i ∈ (sinkSurvivors p image surface pos cp cn cs).filter
        fun i => decide (coarseOfPos3 p (pos.getD i sentinel) = c),
      r.new_valid_balls_mask.getD i false = true ∧
      ∀ j ∈ (sinkSurvivors p image surface pos cp cn cs).filter
          fun i => decide (coarseOfPos3 p (pos.getD i sentinel) = c),
        j ≠ i →
          r.new_valid_balls_mask.getD j false = false ∧
          ages.getD j 0 ≤ ages.getD i 0 := by
  have hne : ((sinkSurvivors p image surface pos cp cn cs).filter
      fun i => decide (coarseOfPos3 p (pos.getD i sentinel) = c)) ≠ [] := by
    intro hnil
    rw [hnil] at hmulti
    simp at hmulti
  obtain ⟨g, hg⟩ := List.exists_mem_of_ne_nil _ hne
  obtain ⟨i, hi, hvi, hrest⟩ := sbb_decimation_oldest h hg
  refine ⟨i, hi, hvi, fun j hj hji => ?_⟩
  obtain ⟨hinv, hage⟩ := hrest j hj hji
  refine ⟨hinv, ?_⟩
  rcases hage with hlt | ⟨heq, _⟩
  · exact Nat.le_of_lt hlt
  · exact Nat.le_of_eq heq

/-- C6 (amended): the polarity check reads the frame at the ball's
coordinates truncated toward zero (`astype(np.int32)`), not rounded: a ball
passing the off-edge check whose truncated pixel has sign opposite to the
tracked polarity is flagged invalid for that frame. -/
theorem C6_polarity_truncated_pixel (p : Params) (image surface : ℤ → ℤ → ℚ)
    (pos : List Pos3) (ages : List ℕ) (cn cs : Bool) (i : ℕ) (r : SBBResult)
    (hoff : offEdgeO p (pos.getD i sentinel) = false)
    (hsign : qsign (image (txOf pos i) (tyOf pos i)) * p.polarity < 0)
    (h : set_bad_balls p image surface pos ages true cn cs = .ok r) :
    r.new_valid_balls_mask.getD i false = false :=
  sbb_polarity_flags_invalid h hsign

/-- C7 (amended): when all balls that reach one of the polarity, noise or
sinking checks fail it, `set_bad_balls` stops the run at once via
`sys.exit(1)`; the printed message identifies which check fired (the three
messages are pairwise distinct) but carries no frame index. -/
theorem C7_total_invalidation_abort (p : Params) (image surface : ℤ → ℤ → ℚ)
    (pos : List Pos3) (ages : List ℕ) (e : AbortError)
    (h : match e with
      | .polarityAbort => ∀ i ∈ offEdgeSurvivors p pos,
          qsign (image (txOf pos i) (tyOf pos i)) * p.polarity < 0
      | .noiseAbort => polaritySurvivors p image pos true ≠ [] ∧
          ∀ i ∈ polaritySurvivors p image pos true,
            |image (txOf pos i) (tyOf pos i)| ≤ p.noise_level
      | .sinkingAbort => polaritySurvivors p image pos true ≠ [] ∧
          noiseSurvivors p image pos true true ≠ [] ∧
          ∀ i ∈ noiseSurvivors p image pos true true,
            (tzOf pos i : ℚ) ≤ surface (txOf pos i) (tyOf pos i) - min_ds_ p) :
    set_bad_balls p image surface pos ages true true true = .error e ∧
    e.exitCode = 1 ∧
    ∀ e2 : AbortError, e.message = e2.message → e = e2 := by
  refine ⟨?_, rfl, ?_⟩
  · cases e with
    | polarityAbort => exact sbb_polarity_abort h
    | noiseAbort =>
      refine sbb_noise_abort ?_ h.2
      simp only [Bool.true_and, List.isEmpty_iff]
      intro hfalse
      exact h.1 (by simpa using hfalse)
    | sinkingAbort =>
      refine sbb_sinking_abort ?_ ?_ h.2.2
      · simp only [Bool.true_and, List.isEmpty_iff]
        intro hfalse
        exact h.1 (by simpa using hfalse)
      · simp only [Bool.true_and, List.isEmpty_iff]
        intro hfalse
        exact h.2.1 (by simpa using hfalse)
  · intro e2 hm
    cases e <;> cases e2 <;> first
      | rfl
      | exact absurd hm (by decide)

/-- C10: an active slot (index below the current active-ball count) that is
invalid at the end of some frame is never valid at the end of any later
frame: its sentinel position fails the off-edge check of every following
`set_bad_balls`, and the emergence populator writes only into trailing
slots at or above the active-ball count. -/
theorem C10_no_resurrection (A : RunArgs) (k m slot : ℕ) (hkm : k < m)
    (hdead : (runUpTo A (k + 1)).toOption.map
      (fun s => (s.new_valid_balls_mask.getD slot false, decide (slot < s.nballs))) =
      some (false, true)) :
    (runUpTo A m).toOption.map (fun s => s.new_valid_balls_mask.getD slot false) ≠
      some true := by
  cases hrun1 : runUpTo A (k + 1) with
  | error e =>
    rw [hrun1] at hdead
    simp [Except.toOption] at hdead
  | ok sk =>
    rw [hrun1] at hdead
    simp only [Except.toOption, Option.map_some', Option.some.injEq, Prod.mk.injEq] at hdead
    obtain ⟨hval, hcnt⟩ := hdead
    have hcnt2 : slot < sk.nballs := of_decide_eq_true hcnt
    obtain ⟨s0, h0, hstep⟩ := runUpTo_succ.mp hrun1
    have hd : deadSlot sk slot :=
      trackStep_post_dead (stateLens_runUpTo h0) hstep hval hcnt2
    cases hrun2 : runUpTo A m with
    | error e => simp [Except.toOption]
    | ok sm =>
      have hm2 : runUpTo A ((k + 1) + (m - (k + 1))) = .ok sm := by
        rw [Nat.add_sub_cancel' (by omega)]
        exact hrun2
      have hdm : deadSlot sm slot := dead_run (m - (k + 1)) hrun1 hd hm2
      simp only [Except.toOption, Option.map_some', Option.some.injEq]
      rw [hdm.2.1]
      simp

/-- C5 (amended): with emergence tracking, at a frame n > 0 the positions
appended by the emergence populator are exactly the extrema candidates of
the frame whose minimum distance to every currently valid ball exceeds
ballspacing + 1 and whose footprint lies within the frame edges (for a
positive ball radius and in-range coordinates; the ghost (0, 0) entries of
the int32 reinterpretation are dropped by the edge filter).  They occupy
the next unused trailing slots with zero velocity and a height computed by
the same `put_balls_on_surface` rule as initialization, the active-ball
count grows by the number appended, and the appended slots are marked
valid while their age stays at the initial 1.  A trailing slot (never
active before the frame, age still 1) that is valid at the end of the
frame has recorded age 2 — not 1 as the original claim states. -/
theorem C5_emergence_population (A : RunArgs) (n slot : ℕ) (st : RunState) (a : ℕ)
    (hrs : 1 ≤ A.p.rs)
    (hsmall : ∀ c ∈ A.extrema (A.frames n), c.1 < 2 ^ 31 ∧ c.2 < 2 ^ 31)
    (hlen : stateLens A.p st)
    (hcap : st.nballs +
      (newEmergencePositions A.p (A.extrema (A.frames n)) st).length ≤ st.pos.length)
    (hage1 : st.balls_age.getD slot 0 = 1)
    (hstepv : (trackStep A n st).toOption.map
      (fun s => (s.new_valid_balls_mask.getD slot false, s.balls_age.getD slot 0)) =
      some (true, a)) :
    (newEmergencePositions A.p (A.extrema (A.frames n)) st =
      (((A.extrema (A.frames n)).filter (farFromValidBalls A.p st)).filter fun c =>
        !offEdgeQ A.p (c.1 : ℚ) (c.2 : ℚ)).map fun c => ((c.1 : ℤ), (c.2 : ℤ))) ∧
    (populate_emergence A.p (A.extrema (A.frames n)) (surfaceAt A n) st).nballs =
      st.nballs + (newEmergencePositions A.p (A.extrema (A.frames n)) st).length ∧
    (populate_emergence A.p (A.extrema (A.frames n)) (surfaceAt A n) st).balls_age =
      st.balls_age ∧
    (∀ k, k < (newEmergencePositions A.p (A.extrema (A.frames n)) st).length →
      (populate_emergence A.p (A.extrema (A.frames n)) (surfaceAt A n) st).pos.getD
          (st.nballs + k) sentinel =
        (some ((((newEmergencePositions A.p (A.extrema (A.frames n)) st).getD k
            (0, 0)).1 : ℚ)),
         some ((((newEmergencePositions A.p (A.extrema (A.frames n)) st).getD k
            (0, 0)).2 : ℚ)),
         some (put_balls_on_surface (surfaceAt A n)
           ((((newEmergencePositions A.p (A.extrema (A.frames n)) st).getD k
              (0, 0)).1 : ℚ))
           ((((newEmergencePositions A.p (A.extrema (A.frames n)) st).getD k
              (0, 0)).2 : ℚ)) A.p.rs A.p.dp)) ∧
      (populate_emergence A.p (A.extrema (A.frames n)) (surfaceAt A n) st).vel.getD
          (st.nballs + k) nanTriple = zeroTriple ∧
      (populate_emergence A.p (A.extrema (A.frames n)) (surfaceAt A n)
          st).new_valid_balls_mask.getD (st.nballs + k) false = true) ∧
    a = 2 := by
  obtain ⟨l1, l2, l3, l4, l5⟩ := hlen
  have hfacts := @populate_emergence_facts A.p (A.extrema (A.frames n))
    (surfaceAt A n) st (by omega) (by omega) hcap
  refine ⟨newEmergencePositions_eq hrs hsmall, hfacts.1, hfacts.2.1, hfacts.2.2, ?_⟩
  cases hrun : trackStep A n st with
  | error e =>
    rw [hrun] at hstepv
    simp [Except.toOption] at hstepv
  | ok s =>
    rw [hrun] at hstepv
    simp only [Except.toOption, Option.map_some', Option.some.injEq, Prod.mk.injEq]
      at hstepv
    obtain ⟨hval, hage⟩ := hstepv
    rw [← hage]
    exact trackStep_fresh_age ⟨l1, l2, l3, l4, l5⟩ hrun hage1 hval

/-! ### Witnesses and counterexamples -/

set_option maxRecDepth 200000 in
/-- Witness for C1 at a concrete two-ball run: both balls are valid at
frame 0 in distinct coarse cells. -/
theorem C1_witness :
    (0 : ℕ) ≠ 1 ∧
    validRecordAt exArgsC1 0 0 = some true ∧
    validRecordAt exArgsC1 0 1 = some true ∧
    posRecordAt exArgsC1 0 0 = some (some 2, some 2, some 1) ∧
    posRecordAt exArgsC1 0 1 = some (some 6, some 2, some 1) ∧
    coarseOfPos3 exArgsC1.p (some 2, some 2, some 1) ≠
      coarseOfPos3 exArgsC1.p (some 6, some 2, some 1) :=
  ⟨by decide, by with_unfolding_all decide, by with_unfolding_all decide,
   by with_unfolding_all decide, by with_unfolding_all decide,
   C1_decimation_invariant exArgsC1 0 0 1 (by decide) _ _
     (by with_unfolding_all decide) (by with_unfolding_all decide)
     (by with_unfolding_all decide) (by with_unfolding_all decide)⟩

set_option maxRecDepth 200000 in
/-- Counterexample for C2 as stated: two fully checked balls of equal age
share a coarse cell, and the decimation keeps slot 1, not the lowest slot
0 that the ascending-slot-index tie-break would select.  (On a two-element
array numpy's argsort insertion-sorts, so the model's order is the real
program's order here.) -/
theorem C2_counterexample :
    coarseOfPos3 exParams20 (c2pos.getD 0 sentinel) =
      coarseOfPos3 exParams20 (c2pos.getD 1 sentinel) ∧
    [3, 3].getD 0 0 = [3, 3].getD 1 0 ∧
    set_bad_balls exParams20 c2img c2surf c2pos [3, 3] true true true =
      .ok { bad_balls_mask := [true, false], new_valid_balls_mask := [false, true],
            unique_valid_balls := [1] } := by
  with_unfolding_all decide

set_option maxRecDepth 200000 in
/-- Witness for the amended C2 at a concrete cell with two balls of ages 7
and 3. -/
theorem C2_witness :
    2 ≤ ((sinkSurvivors exParams20 c2img c2surf c2pos true true true).filter
      fun i => decide (coarseOfPos3 exParams20 (c2pos.getD i sentinel) = 0)).length ∧
    set_bad_balls exParams20 c2img c2surf c2pos [7, 3] true true true = .ok c2res ∧
    ∃ i ∈ (sinkSurvivors exParams20 c2img c2surf c2pos true true true).filter
        fun i => decide (coarseOfPos3 exParams20 (c2pos.getD i sentinel) = 0),
      c2res.new_valid_balls_mask.getD i false = true ∧
      ∀ j ∈ (sinkSurvivors exParams20 c2img c2surf c2pos true true true).filter
          fun i => decide (coarseOfPos3 exParams20 (c2pos.getD i sentinel) = 0),
        j ≠ i →
          c2res.new_valid_balls_mask.getD j false = false ∧
          [7, 3].getD j 0 ≤ [7, 3].getD i 0 :=
  ⟨by with_unfolding_all decide, by with_unfolding_all decide,
   C2_decimation_keeps_oldest exParams20 c2img c2surf c2pos [7, 3] true true true
     c2res 0 (by with_unfolding_all decide) (by with_unfolding_all decide)⟩

set_option maxRecDepth 400000 in
/-- Witness for C3 at a concrete run: the surviving ball's recorded age
grows from 2 at frame 0 to 3 at frame 1. -/
theorem C3_witness :
    (0 : ℕ) < nballs_max exArgsC1.p ∧
    ageRecordAt exArgsC1 1 0 = some 3 ∧
    validRecordAt exArgsC1 1 0 = some true ∧
    (if (1 : ℕ) = 0 then some 1 else ageRecordAt exArgsC1 0 0) = some 2 ∧
    3 = 2 + (if true = true then 1 else 0) :=
  ⟨by decide, by with_unfolding_all decide, by with_unfolding_all decide,
   by with_unfolding_all decide,
   C3_age_monotonicity exArgsC1 1 0 (by decide) 3 2 true
     (by with_unfolding_all decide) (by with_unfolding_all decide)
     (by with_unfolding_all decide)⟩

set_option maxRecDepth 200000 in
/-- Witness for C4 at a concrete run: the polarity-invalidated slot 1 has
sentinel position and NaN velocity at frame 0. -/
theorem C4_witness :
    posRecordAt exArgsB 0 1 = some sentinel ∧
    validRecordAt exArgsB 0 1 = some false ∧
    velNowAt exArgsB 0 1 = some nanTriple ∧
    ((false = false ↔ sentinel = sentinel) ∧
      (false = false → nanTriple = nanTriple)) :=
  ⟨by with_unfolding_all decide, by with_unfolding_all decide,
   by with_unfolding_all decide,
   C4_sentinel_consistency exArgsB 0 1 sentinel nanTriple false
     (by with_unfolding_all decide) (by with_unfolding_all decide)
     (by with_unfolding_all decide)⟩

set_option maxRecDepth 400000 in
/-- Counterexample for C5 as stated: the ball appended by the emergence
populator at frame 1 is valid after that frame but carries recorded age 2,
not 1. -/
theorem C5_counterexample :
    (runUpTo exArgsE 1).toOption.map (fun s => s.nballs) = some 1 ∧
    (runUpTo exArgsE 2).toOption.map (fun s => s.nballs) = some 2 ∧
    validRecordAt exArgsE 1 1 = some true ∧
    ageRecordAt exArgsE 1 1 = some 2 ∧
    ageRecordAt exArgsE 1 1 ≠ some 1 := by
  with_unfolding_all decide

set_option maxRecDepth 400000 in
/-- Witness for the amended C5 at the concrete emergence run of frame 1. -/
theorem C5_witness :
    1 ≤ exArgsE.p.rs ∧
    (∀ c ∈ exArgsE.extrema (exArgsE.frames 1), c.1 < 2 ^ 31 ∧ c.2 < 2 ^ 31) ∧
    stateLens exArgsE.p (initMBT exArgsE) ∧
    (initMBT exArgsE).nballs +
      (newEmergencePositions exArgsE.p (exArgsE.extrema (exArgsE.frames 1))
        (initMBT exArgsE)).length ≤ (initMBT exArgsE).pos.length ∧
    (initMBT exArgsE).balls_age.getD 1 0 = 1 ∧
    (trackStep exArgsE 1 (initMBT exArgsE)).toOption.map
      (fun s => (s.new_valid_balls_mask.getD 1 false, s.balls_age.getD 1 0)) =
      some (true, 2) ∧
    ((newEmergencePositions exArgsE.p (exArgsE.extrema (exArgsE.frames 1))
        (initMBT exArgsE) =
      (((exArgsE.extrema (exArgsE.frames 1)).filter
          (farFromValidBalls exArgsE.p (initMBT exArgsE))).filter fun c =>
        !offEdgeQ exArgsE.p (c.1 : ℚ) (c.2 : ℚ)).map fun c => ((c.1 : ℤ), (c.2 : ℤ))) ∧
    (populate_emergence exArgsE.p (exArgsE.extrema (exArgsE.frames 1))
        (surfaceAt exArgsE 1) (initMBT exArgsE)).nballs =
      (initMBT exArgsE).nballs +
        (newEmergencePositions exArgsE.p (exArgsE.extrema (exArgsE.frames 1))
          (initMBT exArgsE)).length ∧
    (populate_emergence exArgsE.p (exArgsE.extrema (exArgsE.frames 1))
        (surfaceAt exArgsE 1) (initMBT exArgsE)).balls_age =
      (initMBT exArgsE).balls_age ∧
    (∀ k, k < (newEmergencePositions exArgsE.p (exArgsE.extrema (exArgsE.frames 1))
        (initMBT exArgsE)).length →
      (populate_emergence exArgsE.p (exArgsE.extrema (exArgsE.frames 1))
          (surfaceAt exArgsE 1) (initMBT exArgsE)).pos.getD
          ((initMBT exArgsE).nballs + k) sentinel =
        (some ((((newEmergencePositions exArgsE.p (exArgsE.extrema (exArgsE.frames 1))
            (initMBT exArgsE)).getD k (0, 0)).1 : ℚ)),
         some ((((newEmergencePositions exArgsE.p (exArgsE.extrema (exArgsE.frames 1))
            (initMBT exArgsE)).getD k (0, 0)).2 : ℚ)),
         some (put_balls_on_surface (surfaceAt exArgsE 1)
           ((((newEmergencePositions exArgsE.p (exArgsE.extrema (exArgsE.frames 1))
              (initMBT exArgsE)).getD k (0, 0)).1 : ℚ))
           ((((newEmergencePositions exArgsE.p (exArgsE.extrema (exArgsE.frames 1))
              (initMBT exArgsE)).getD k (0, 0)).2 : ℚ)) exArgsE.p.rs exArgsE.p.dp)) ∧
      (populate_emergence exArgsE.p (exArgsE.extrema (exArgsE.frames 1))
          (surfaceAt exArgsE 1) (initMBT exArgsE)).vel.getD
          ((initMBT exArgsE).nballs + k) nanTriple = zeroTriple ∧
      (populate_emergence exArgsE.p (exArgsE.extrema (exArgsE.frames 1))
          (surfaceAt exArgsE 1)
          (initMBT exArgsE)).new_valid_balls_mask.getD
          ((initMBT exArgsE).nballs + k) false = true) ∧
    (2 : ℕ) = 2) :=
  ⟨by decide, by with_unfolding_all decide,
   by unfold stateLens; with_unfolding_all decide,
   by with_unfolding_all decide, by with_unfolding_all decide,
   by with_unfolding_all decide,
   C5_emergence_population exArgsE 1 1 (initMBT exArgsE) 2 (by decide)
     (by with_unfolding_all decide)
     (by unfold stateLens; with_unfolding_all decide)
     (by with_unfolding_all decide) (by with_unfolding_all decide)
     (by with_unfolding_all decide)⟩

set_option maxRecDepth 200000 in
/-- Counterexample for C6 as stated: the ball at x = 5.6 sits, after
rounding, on an opposite-polarity pixel, yet the polarity check (which
truncates) keeps it valid. -/
theorem C6_counterexample :
    offEdgeO exParams20 (c6pos.getD 0 sentinel) = false ∧
    qsign (c6img (roundQ (28 / 5)) (roundQ 5)) * exParams20.polarity < 0 ∧
    (set_bad_balls exParams20 c6img c2surf c6pos [1, 1] true true true).toOption.map
      (fun r => r.new_valid_balls_mask.getD 0 false) = some true := by
  with_unfolding_all decide

set_option maxRecDepth 200000 in
/-- Witness for the amended C6: a ball whose truncated pixel has the wrong
sign is flagged invalid. -/
theorem C6_witness :
    offEdgeO exParams20 (c6posW.getD 0 sentinel) = false ∧
    qsign (c6img (txOf c6posW 0) (tyOf c6posW 0)) * exParams20.polarity < 0 ∧
    set_bad_balls exParams20 c6img c2surf c6posW [1, 1] true true true = .ok c6resW ∧
    c6resW.new_valid_balls_mask.getD 0 false = false :=
  ⟨by with_unfolding_all decide, by with_unfolding_all decide,
   by with_unfolding_all decide,
   C6_polarity_truncated_pixel exParams20 c6img c2surf c6posW [1, 1] true true 0
     c6resW (by with_unfolding_all decide) (by with_unfolding_all decide)
     (by with_unfolding_all decide)⟩

set_option maxRecDepth 200000 in
/-- Counterexample for C7 as stated: two runs aborting on the polarity
check at different frames (frame 0 and frame 1) yield identical terminal
errors — the frame index is not part of the diagnostic. -/
theorem C7_counterexample :
    runUpTo exArgsDa 1 = .error .polarityAbort ∧
    (runUpTo exArgsDb 1).toOption.isSome = true ∧
    runUpTo exArgsDb 2 = .error .polarityAbort ∧
    runUpTo exArgsDa 1 = runUpTo exArgsDb 2 := by
  with_unfolding_all decide

set_option maxRecDepth 200000 in
/-- Witness for the amended C7: every ball fails the polarity check and the
run stops with the polarity abort, exit code 1, and a message that is
distinct from the other checks' messages. -/
theorem C7_witness :
    (∀ i ∈ offEdgeSurvivors exParams20 c7pos,
      qsign (c7img (txOf c7pos i) (tyOf c7pos i)) * exParams20.polarity < 0) ∧
    (set_bad_balls exParams20 c7img c2surf c7pos [1] true true true =
        .error .polarityAbort ∧
      AbortError.polarityAbort.exitCode = 1 ∧
      ∀ e2 : AbortError, AbortError.polarityAbort.message = e2.message →
        AbortError.polarityAbort = e2) :=
  ⟨by with_unfolding_all decide,
   C7_total_invalidation_abort exParams20 c7img c2surf c7pos [1] .polarityAbort
     (by with_unfolding_all decide)⟩

set_option maxRecDepth 400000 in
/-- Witness for C10 at a concrete run: the slot invalidated at frame 0 is
still invalid after frame 1. -/
theorem C10_witness :
    (0 : ℕ) < 2 ∧
    (runUpTo exArgsB 1).toOption.map
      (fun s => (s.new_valid_balls_mask.getD 1 false, decide (1 < s.nballs))) =
      some (false, true) ∧
    (runUpTo exArgsB 2).toOption.map
      (fun s => s.new_valid_balls_mask.getD 1 false) ≠ some true :=
  ⟨by decide, by with_unfolding_all decide,
   C10_no_resurrection exArgsB 0 2 1 (by decide) (by with_unfolding_all decide)⟩

/-- Witness for C9 at concrete surfaces and sub-step indices. -/
theorem C9_witness :
    (3 : ℕ) < 15 ∧ (1 : ℕ) = exArgsC1.p.nt - 1 ∧
    (interpSurface exImgOne (fun _ _ => 2) 15 3 0 0 =
      (((15 : ℚ) - 3) * exImgOne 0 0 + (3 : ℚ) * 2) / 15 ∧
    interpSurface exImgOne exImgOne 15 3 0 0 = exImgOne 0 0 ∧
    nextSurfaceAt exArgsC1 1 = surfaceAt exArgsC1 1) :=
  ⟨by decide, by decide,
   C9_substep_surface_interpolation exImgOne (fun _ _ => 2) 15 3 0 0 exArgsC1 1
     (by decide) (by decide)⟩

end MBall
